import Mathlib

/-! FaceRecognition: enrolment, histogram matching and persistence.

A shallow embedding of `FaceRecognition.cpp` / `FaceRecognition.h`.

* The OpenCV calls (`cvtColor`, `equalizeHist`, `resize`, `detectMultiScale`,
  `calcHist`, `compareHist`, the region-of-interest operator) are library code;
  they are the fields of `OpenCV`, and the general theorems quantify over them.
  `toyCV` is one concrete instance, used to evaluate the definitions.
* A `double` is the rational it denotes. The product `bestMatch * 100` is the
  binary64 product: the exact product rounded to nearest, ties to even
  (`mulDouble`). The comparison `bestMatch > 0.7` is taken against `7/10`: no
  binary64 value is above the double `0.7` and at most `7/10`, so the two
  comparisons agree on every binary64 score.
* `int` values are integers; text extraction of an `int` rejects a value
  outside the 32-bit range, as the stream does, and the `label + 1` stored
  into `m_nextLabel` by `LoadTrainingData` wraps to 32 bits (`wrapInt32`). The
  `m_nextLabel++` of `AddFace` is the plain successor: from a constructed store
  the counter stays below `INT_MAX` for fewer than `2^31 - 1` stored entries.
* `std::map<int, std::string>` is its in-order list of pairs.
* Reading `m_trainingLabels[i]` past the end of the vector is undefined in C++;
  `MatchFace` returns `none` there.
* A file system maps a path to a `cv::FileStorage` artifact, stored exactly, or
  to a text file, and says which paths can be opened for writing. Library
  exceptions (the `catch` branches of save and load) are outside the model.
-/

namespace FaceRec

/-- Stand-in for `cv::Mat`: the header fields the code inspects and the pixels. -/
structure Mat where
  rows : Nat
  cols : Nat
  channels : Nat
  data : List Nat
deriving DecidableEq, Repr

/-- Stand-in for `cv::Rect`. -/
structure Rect where
  x : Int
  y : Int
  width : Int
  height : Int
deriving DecidableEq, Repr

/-- The OpenCV operations called by the class, with the arguments the source
    fixes already applied. -/
structure OpenCV where
  /-- Models `m_faceCascade.load(path)`. -/
  cascadeLoad : String → Bool
  /-- Models `cv::cvtColor(src, dst, cv::COLOR_BGR2GRAY)`. -/
  cvtColorGray : Mat → Mat
  /-- Models `cv::equalizeHist(src, dst)`. -/
  equalizeHist : Mat → Mat
  /-- Models `cv::resize(src, dst, cv::Size(100, 100))`. -/
  resize100 : Mat → Mat
  /-- Models `m_faceCascade.detectMultiScale(gray, faces, 1.1, 3, 0, cv::Size(30, 30))`. -/
  detectMultiScale : Mat → List Rect
  /-- Models the region-of-interest operator `image(rect)`. -/
  roi : Mat → Rect → Mat
  /-- Models `cv::calcHist(&img, 1, 0, cv::Mat(), hist, 1, &histSize, &histRange)`
      with `histSize = 256` and range `[0, 256)`. -/
  calcHist : Mat → List ℚ
  /-- Models `cv::compareHist(h1, h2, cv::HISTCMP_CORREL)`. -/
  compareHist : List ℚ → List ℚ → ℚ

/-- The data members of `class FaceRecognition` that the modelled operations
    read or write (`m_faceCascade` lives in `OpenCV`; the camera handle and the
    current frame are not touched by them). -/
structure FaceRecognition where
  m_trainingImages : List Mat
  m_trainingLabels : List Int
  m_labelToName : List (Int × String)
  m_nextLabel : Int
  m_cameraRunning : Bool
  m_initialized : Bool
deriving DecidableEq, Repr

/-! ## `std::map<int, std::string>` -/

/-- Models `m.find(k)`: the mapped name, or `none` for `m.end()`. -/
def mapFind : List (Int × String) → Int → Option String
  | [], _ => none
  | (k', v') :: rest, k => if k = k' then some v' else mapFind rest k

/-- Models `m[k] = v`: insert or overwrite, keeping the keys in increasing order. -/
def mapAssign : List (Int × String) → Int → String → List (Int × String)
  | [], k, v => [(k, v)]
  | (k', v') :: rest, k, v =>
    if k < k' then (k, v) :: (k', v') :: rest
    else if k = k' then (k, v) :: rest
    else (k', v') :: mapAssign rest k v

/-! ## Construction and initialisation -/

/-- Models `FaceRecognition::FaceRecognition()`. -/
def FaceRecognition.new : FaceRecognition :=
  { m_trainingImages := []
    m_trainingLabels := []
    m_labelToName := []
    m_nextLabel := 0
    m_cameraRunning := false
    m_initialized := false }

/-- The fallback paths tried by `Initialize`. -/
def possiblePaths : List String :=
  [ "haarcascade_frontalface_alt.xml",
    "haarcascade_frontalface_default.xml",
    "C:/opencv/build/etc/haarcascades/haarcascade_frontalface_alt.xml",
    "data/haarcascades/haarcascade_frontalface_alt.xml" ]

/-- Models `FaceRecognition::Initialize`. -/
def Initialize (cv : OpenCV) (s : FaceRecognition) : Bool × FaceRecognition :=
  if !cv.cascadeLoad "haarcascade_frontalface_alt.xml" then
    if !possiblePaths.any cv.cascadeLoad then (false, s)
    else (true, { s with m_initialized := true })
  else (true, { s with m_initialized := true })

/-! ## Detection and preprocessing -/

/-- Models `FaceRecognition::DetectFaces`. -/
def DetectFaces (cv : OpenCV) (s : FaceRecognition) (image : Mat) : List Rect :=
  if !s.m_initialized then []
  else
    let grayImage := if image.channels = 3 then cv.cvtColorGray image else image
    cv.detectMultiScale (cv.equalizeHist grayImage)

/-- Models `FaceRecognition::PreprocessFace`. -/
def PreprocessFace (cv : OpenCV) (face : Mat) : Mat :=
  let grayFace := if face.channels = 3 then cv.cvtColorGray face else face
  cv.equalizeHist (cv.resize100 grayFace)

/-! ## Matching -/

/-- Round to the nearest integer, ties to the even one. -/
def roundHalfEven (q : ℚ) : Int :=
  if q - ⌊q⌋ < 1 / 2 then ⌊q⌋
  else if 1 / 2 < q - ⌊q⌋ then ⌊q⌋ + 1
  else if ⌊q⌋ % 2 = 0 then ⌊q⌋ else ⌊q⌋ + 1

/-- The binary64 value a real result is rounded to (round to nearest, ties to
    even; 53-bit significand, subnormals below `2^-1022`), for a result below
    `2^1024` in magnitude. -/
def fl64 (x : ℚ) : ℚ :=
  if x = 0 then 0
  else (roundHalfEven (x / 2 ^ (max (Int.log 2 |x|) (-1022) - 52)) : ℚ) *
    2 ^ (max (Int.log 2 |x|) (-1022) - 52)

/-- Models `a * b` on `double` operands: the exact product rounded to binary64. -/
def mulDouble (a b : ℚ) : ℚ := fl64 (a * b)

/-- Models `(int)x` for a `double` within the `int` range: truncation toward zero. -/
def castInt (x : ℚ) : Int := if 0 ≤ x then ⌊x⌋ else ⌈x⌉

/-- The text returned for a match: `bestName + " (匹配度: " + std::to_string(p) + "%)"`. -/
def matchText (bestName : String) (p : Int) : String :=
  bestName ++ " (匹配度: " ++ toString p ++ "%)"

/-- The score of one gallery image against the probe: `calcHist` on both,
    then `compareHist(hist1, hist2, HISTCMP_CORREL)`. -/
def correlation (cv : OpenCV) (face img : Mat) : ℚ :=
  cv.compareHist (cv.calcHist face) (cv.calcHist img)

/-- The `for` loop of `MatchFace`, from index `i` over the images not yet
    visited, carrying `bestMatch` and `bestName`. -/
def MatchFace_loop (cv : OpenCV) (s : FaceRecognition) (face : Mat) :
    List Mat → Nat → ℚ → String → Option (ℚ × String)
  | [], _, bestMatch, bestName => some (bestMatch, bestName)
  | img :: rest, i, bestMatch, bestName =>
    let correlation := cv.compareHist (cv.calcHist face) (cv.calcHist img)
    if correlation > bestMatch then
      match s.m_trainingLabels[i]? with
      | none => none
      | some label =>
        match mapFind s.m_labelToName label with
        | some name => MatchFace_loop cv s face rest (i + 1) correlation name
        | none => MatchFace_loop cv s face rest (i + 1) correlation bestName
    else MatchFace_loop cv s face rest (i + 1) bestMatch bestName

/-- Models `FaceRecognition::MatchFace`. -/
def MatchFace (cv : OpenCV) (s : FaceRecognition) (face : Mat) : Option String :=
  if s.m_trainingImages.isEmpty then some "未知"
  else
    match MatchFace_loop cv s face s.m_trainingImages 0 (-1) "未知" with
    | none => none
    | some (bestMatch, bestName) =>
      if bestMatch > 7 / 10 then
        some (matchText bestName (castInt (mulDouble bestMatch 100)))
      else some "未知"

/-- Models `FaceRecognition::AddFace`. -/
def AddFace (cv : OpenCV) (s : FaceRecognition) (name : String) (image : Mat) :
    Bool × FaceRecognition :=
  if !s.m_initialized then (false, s)
  else
    match DetectFaces cv s image with
    | [] => (false, s)
    | r :: _ =>
      let processedFace := PreprocessFace cv (cv.roi image r)
      (true, { s with
        m_trainingImages := s.m_trainingImages ++ [processedFace]
        m_trainingLabels := s.m_trainingLabels ++ [s.m_nextLabel]
        m_labelToName := mapAssign s.m_labelToName s.m_nextLabel name
        m_nextLabel := s.m_nextLabel + 1 })

/-- Models `FaceRecognition::RecognizeFace`. -/
def RecognizeFace (cv : OpenCV) (s : FaceRecognition) (image : Mat) : Option String :=
  if !s.m_initialized || s.m_trainingImages.isEmpty then some "未知"
  else
    match DetectFaces cv s image with
    | [] => some "未检测到人脸"
    | r :: _ => MatchFace cv s (PreprocessFace cv (cv.roi image r))

/-! ## Concrete library used to evaluate the definitions -/

/-- A one-pixel image with grey level `v`. -/
def px (v : Nat) : Mat := { rows := 1, cols := 1, channels := 1, data := [v] }

/-- A toy library: an image has a face iff its first pixel is non-zero, the
    image operations are the identity, the histogram is the pixel value, and
    the score of two histograms is `1 - |a - b| / 1000`. -/
def toyCV : OpenCV :=
  { cascadeLoad := fun p => p == "haarcascade_frontalface_default.xml"
    cvtColorGray := id
    equalizeHist := id
    resize100 := id
    detectMultiScale := fun m => if m.data.head? = some 0 ∨ m.data = [] then [] else [⟨0, 0, 1, 1⟩]
    roi := fun m _ => m
    calcHist := fun m => m.data.map (fun n => (n : ℚ))
    compareHist := fun a b => 1 - |a.sum - b.sum| / 1000 }

/-- The binary64 value nearest to 0.71. -/
def double071 : ℚ := 799388933858263 / 1125899906842624

/-- The toy library with every score replaced by `double071`. -/
def constCV : OpenCV := { toyCV with compareHist := fun _ _ => double071 }

/-- A store with four entries; the second and the third hold the same image. -/
def tieStore : FaceRecognition :=
  { m_trainingImages := [px 5, px 9, px 9, px 7]
    m_trainingLabels := [0, 1, 2, 3]
    m_labelToName := [(0, "ann"), (1, "bob"), (2, "cat"), (3, "dan")]
    m_nextLabel := 4
    m_cameraRunning := false
    m_initialized := true }

/-- A store with a single entry, image `px 0`, named "alice". -/
def thresholdStore : FaceRecognition :=
  { m_trainingImages := [px 0]
    m_trainingLabels := [0]
    m_labelToName := [(0, "alice")]
    m_nextLabel := 1
    m_cameraRunning := false
    m_initialized := true }

/-! ## Sequences of enrolment calls -/

/-- A sequence of `AddFace` calls, each on the store left by the previous one. -/
def AddFaces (cv : OpenCV) (s : FaceRecognition) : List (String × Mat) → FaceRecognition
  | [] => s
  | (name, image) :: rest => AddFaces cv (AddFace cv s name image).2 rest

/-- The number of calls in the sequence for which `AddFace` returned `true`. -/
def AddFaces_successes (cv : OpenCV) (s : FaceRecognition) : List (String × Mat) → Nat
  | [] => 0
  | (name, image) :: rest =>
    (if (AddFace cv s name image).1 then 1 else 0) +
      AddFaces_successes cv (AddFace cv s name image).2 rest

/-- A freshly constructed store, then `Initialize`. -/
def freshStore (cv : OpenCV) : FaceRecognition := (Initialize cv FaceRecognition.new).2

/-- Three enrolment calls; the second image has no face for `toyCV`. -/
def sessionCalls : List (String × Mat) := [("ann", px 3), ("nobody", px 0), ("bob", px 4)]

/-! ## Files -/

/-- What a path holds: an artifact written by `cv::FileStorage` (the image
    sequence `training_images` and the vector `training_labels`, stored exactly),
    or a plain text file. -/
inductive File where
  | storage (images : List Mat) (labels : List Int)
  | text (content : String)
deriving DecidableEq, Repr

/-- The files the class can see, and which paths can be opened for writing. -/
structure FileSystem where
  files : String → Option File
  writable : String → Bool

/-- The file system after `path` is (over)written with `f`. -/
def FileSystem.write (fsys : FileSystem) (path : String) (f : File) : FileSystem :=
  { fsys with files := fun p => if p = path then some f else fsys.files p }

/-- The lines written by `mapFile << pair.first << " " << pair.second << std::endl`
    for every pair of the map, in key order. -/
def mapFileText : List (Int × String) → String
  | [] => ""
  | (label, name) :: rest => toString label ++ " " ++ name ++ "\n" ++ mapFileText rest

/-- Models `FaceRecognition::SaveTrainingData`. The `catch` branch (a library
    exception while writing) is not modelled. -/
def SaveTrainingData (s : FaceRecognition) (fsys : FileSystem) (filename : String) :
    Bool × FileSystem :=
  if s.m_trainingImages.isEmpty then (false, fsys)
  else if !fsys.writable filename then (false, fsys)
  else
    let fsys1 := fsys.write filename (File.storage s.m_trainingImages s.m_trainingLabels)
    if fsys1.writable (filename ++ ".map") then
      (true, fsys1.write (filename ++ ".map") (File.text (mapFileText s.m_labelToName)))
    else (true, fsys1)

/-- Models `std::isspace` in the "C" locale, as used by formatted extraction. -/
def isspace (c : Char) : Bool := c.toNat = 32 || (9 ≤ c.toNat && c.toNat ≤ 13)

/-- Models `std::isdigit`. -/
def isdigit (c : Char) : Bool := 48 ≤ c.toNat && c.toNat ≤ 57

/-- Skips leading whitespace, as every formatted extraction does first. -/
def skipws : List Char → List Char
  | [] => []
  | c :: cs => if isspace c then skipws cs else c :: cs

/-- Consumes a run of decimal digits, accumulating its value. -/
def readDigits : List Char → Nat → Nat × List Char
  | [], acc => (acc, [])
  | c :: cs, acc =>
    if isdigit c then readDigits cs (acc * 10 + (c.toNat - 48)) else (acc, c :: cs)

/-- Models `mapFile >> label` for `int label`: optional sign, at least one digit, and
    failure when the value does not fit a 32-bit `int`. Returns the value and
    the unread input, or `none` when the extraction fails. -/
def readInt (cs : List Char) : Option (Int × List Char) :=
  match skipws cs with
  | [] => none
  | c :: rest =>
    let neg := c.toNat = 45
    let body := if c.toNat = 45 ∨ c.toNat = 43 then rest else c :: rest
    match body with
    | [] => none
    | d :: _ =>
      if isdigit d then
        let r := readDigits body 0
        let v : Int := if neg then -(r.1 : Int) else (r.1 : Int)
        if v < -2147483648 ∨ 2147483647 < v then none else some (v, r.2)
      else none

/-- Consumes characters up to the next whitespace. -/
def readNonSpace : List Char → List Char × List Char
  | [] => ([], [])
  | c :: cs =>
    if isspace c then ([], c :: cs)
    else ((c :: (readNonSpace cs).1), (readNonSpace cs).2)

/-- Models `mapFile >> name` for `std::string name`: the next whitespace-delimited
    word, or `none` at end of input. -/
def readWord (cs : List Char) : Option (String × List Char) :=
  match skipws cs with
  | [] => none
  | c :: rest => some (String.mk (readNonSpace (c :: rest)).1, (readNonSpace (c :: rest)).2)

/-- The value a 32-bit `int` holds after the arithmetic result `x`: the
    two's-complement wrap into `[-2^31, 2^31)`. Signed overflow is undefined in
    C++; the compiled code wraps. -/
def wrapInt32 (x : Int) : Int := (x + 2147483648) % 4294967296 - 2147483648

/-- The loop `while (mapFile >> label >> name) { ... }` of `LoadTrainingData`,
    on the unread input, carrying `m_labelToName` and `m_nextLabel`. Every
    iteration consumes input, so fuel equal to the input length is enough
    (`mapFileEntries_fuel`). The `label + 1` stored into the `int` counter
    wraps at `INT_MAX`. -/
def readMap_loop : Nat → List Char → List (Int × String) → Int → List (Int × String) × Int
  | 0, _, m, next => (m, next)
  | fuel + 1, cs, m, next =>
    match readInt cs with
    | none => (m, next)
    | some (label, cs1) =>
      match readWord cs1 with
      | none => (m, next)
      | some (name, cs2) =>
        readMap_loop fuel cs2 (mapAssign m label name)
          (if label ≥ next then wrapInt32 (label + 1) else next)

/-- Models `FaceRecognition::LoadTrainingData`. A path that holds no
    `cv::FileStorage` artifact cannot be opened as one. A companion path that
    holds a `cv::FileStorage` artifact opens as text, but such a file starts with
    `<`, `%` or an opening brace, so the first `mapFile >> label` fails. The `catch` branch
    is not modelled. -/
def LoadTrainingData (s : FaceRecognition) (fsys : FileSystem) (filename : String) :
    Bool × FaceRecognition :=
  match fsys.files filename with
  | some (File.storage images labels) =>
    let s1 := { s with m_trainingImages := images, m_trainingLabels := labels }
    match fsys.files (filename ++ ".map") with
    | none => (true, s1)
    | some (File.storage _ _) => (true, { s1 with m_labelToName := [] })
    | some (File.text content) =>
      let r := readMap_loop content.data.length content.data [] s1.m_nextLabel
      (true, { s1 with m_labelToName := r.1, m_nextLabel := r.2 })
  | _ => (false, s)

/-- An empty disk on which every path can be written. -/
def emptyDisk : FileSystem := { files := fun _ => none, writable := fun _ => true }

/-- The `(label, name)` pairs extracted by the successive iterations of the
    loop of `LoadTrainingData`, in file order. -/
def mapFileEntries : Nat → List Char → List (Int × String)
  | 0, _ => []
  | fuel + 1, cs =>
    match readInt cs with
    | none => []
    | some (label, cs1) =>
      match readWord cs1 with
      | none => []
      | some (name, cs2) => (label, name) :: mapFileEntries fuel cs2

/-- The value accumulated by `readDigits` over a run of digit characters. -/
def digitsValue (ds : List Char) (a : Nat) : Nat :=
  ds.foldl (fun acc c => acc * 10 + (c.toNat - 48)) a

/-- Two enrolment calls, the first with a name of two words. -/
def spaceCalls : List (String × Mat) := [("John Smith", px 3), ("bob", px 4)]

/-- A disk on which only the path "g.xml" can be written. -/
def primaryOnlyDisk : FileSystem :=
  { files := fun _ => none, writable := fun p => p == "g.xml" }

/-- A disk holding a one-entry gallery whose label is `INT_MAX`, with its
    companion file. -/
def maxLabelDisk : FileSystem :=
  { files := fun p =>
      if p = "g.xml" then some (File.storage [px 7] [2147483647])
      else if p = "g.xml.map" then some (File.text "2147483647 max\n")
      else none
    writable := fun _ => true }

/-- A disk holding the artifacts saved to "g.xml" from a store with the single
    entry "zoe". -/
def zoeDisk : FileSystem :=
  (SaveTrainingData (AddFaces toyCV (freshStore toyCV) [("zoe", px 7)]) emptyDisk "g.xml").2

/-- A disk holding only the primary artifact saved to "g.xml" from the gallery
    enrolled by `sessionCalls`: the companion path could not be written. -/
def noMapDisk : FileSystem :=
  (SaveTrainingData (AddFaces toyCV (freshStore toyCV) sessionCalls) primaryOnlyDisk "g.xml").2

/-- A store that enrolled "alice" and then loaded "g.xml" from `noMapDisk`. -/
def staleNameStore : FaceRecognition :=
  (LoadTrainingData (AddFace toyCV (freshStore toyCV) "alice" (px 5)).2 noMapDisk "g.xml").2

/-! ## Lemmas about binary64 rounding -/

/-- An integer below `q` is at most the rounding of `q`. -/
theorem roundHalfEven_ge (q : ℚ) (m : Int) (h : (m : ℚ) ≤ q) : m ≤ roundHalfEven q := by
  have hf : m ≤ ⌊q⌋ := Int.le_floor.mpr h
  unfold roundHalfEven
  split
  · exact hf
  · split
    · omega
    · split <;> omega

/-- An integer above `q` is at least the rounding of `q`. -/
theorem roundHalfEven_le (q : ℚ) (m : Int) (h : q ≤ (m : ℚ)) : roundHalfEven q ≤ m := by
  rcases eq_or_lt_of_le h with h | h
  · have hf : ⌊q⌋ = m := by rw [h]; exact Int.floor_intCast m
    have h0 : q - (⌊q⌋ : ℚ) < 1 / 2 := by rw [hf, h]; norm_num
    unfold roundHalfEven
    rw [if_pos h0, hf]
  · have hf : ⌊q⌋ < m := Int.floor_lt.mpr h
    unfold roundHalfEven
    split
    · omega
    · split
      · omega
      · split <;> omega

/-- Rounding to binary64 does not cross an integer: below `2^53` in magnitude,
    an integer bound on `x` is a bound on its rounding. -/
theorem fl64_int_bounds (x : ℚ) (n : Int) (hx : |x| < 2 ^ 53) :
    ((n : ℚ) ≤ x → (n : ℚ) ≤ fl64 x) ∧ (x ≤ (n : ℚ) → fl64 x ≤ (n : ℚ)) := by
  by_cases h0 : x = 0
  · subst h0
    simp [fl64]
  · have hpos : 0 < |x| := abs_pos.mpr h0
    have hlog : Int.log 2 |x| < 53 :=
      (Int.lt_zpow_iff_log_lt (by norm_num : 1 < 2) hpos).mp (by exact_mod_cast hx)
    obtain ⟨k, hk⟩ : ∃ k : ℕ, max (Int.log 2 |x|) (-1022) - 52 = -(k : Int) := by
      refine ⟨(52 - max (Int.log 2 |x|) (-1022)).toNat, ?_⟩
      have : max (Int.log 2 |x|) (-1022) ≤ 52 := max_le (by omega) (by norm_num)
      omega
    have hu : (2 : ℚ) ^ (-(k : Int)) = ((2 : ℚ) ^ k)⁻¹ := by
      rw [zpow_neg, zpow_natCast]
    have hp : (0 : ℚ) < 2 ^ k := by positivity
    have hfl : fl64 x = (roundHalfEven (x * 2 ^ k) : ℚ) / 2 ^ k := by
      simp only [fl64, h0, if_false, hk, hu, div_inv_eq_mul]
      rw [div_eq_mul_inv]
    rw [hfl]
    constructor
    · intro h
      have h1 : ((n * 2 ^ k : Int) : ℚ) ≤ x * 2 ^ k := by
        push_cast
        exact mul_le_mul_of_nonneg_right h (le_of_lt hp)
      have h2 := roundHalfEven_ge _ _ h1
      rw [le_div_iff₀ hp]
      exact_mod_cast h2
    · intro h
      have h1 : x * 2 ^ k ≤ ((n * 2 ^ k : Int) : ℚ) := by
        push_cast
        exact mul_le_mul_of_nonneg_right h (le_of_lt hp)
      have h2 := roundHalfEven_le _ _ h1
      rw [div_le_iff₀ hp]
      exact_mod_cast h2

/-- The rounding of `x` once its binade `2^e ≤ |x| < 2^(e+1)` is known. -/
theorem fl64_of_binade (x : ℚ) (e : Int) (h1 : (2 : ℚ) ^ e ≤ |x|) (h2 : |x| < (2 : ℚ) ^ (e + 1))
    (he : -1022 ≤ e) :
    fl64 x = (roundHalfEven (x / 2 ^ (e - 52)) : ℚ) * 2 ^ (e - 52) := by
  have hpos : 0 < |x| := lt_of_lt_of_le (by positivity) h1
  have hx : x ≠ 0 := abs_pos.mp hpos
  have hlog : Int.log 2 |x| = e := by
    have a := (Int.zpow_le_iff_le_log (by norm_num : 1 < 2) hpos).mp (by exact_mod_cast h1)
    have b := (Int.lt_zpow_iff_log_lt (by norm_num : 1 < 2) hpos).mp (by exact_mod_cast h2)
    omega
  simp only [fl64, hx, if_false, hlog, max_eq_left he]

/-- The binary64 product `1.0 * 100` is 100. -/
theorem mulDouble_one_hundred : mulDouble 1 100 = 100 := by
  unfold mulDouble
  rw [fl64_of_binade (1 * 100) 6 (by norm_num [abs_of_pos]) (by norm_num [abs_of_pos])
    (by norm_num)]
  simp only [roundHalfEven]
  norm_num

/-- The binary64 product `0.758 * 100`, just below 75.8. -/
theorem mulDouble_0758 :
    mulDouble (379 / 500) 100 = 5333950808666931 / 70368744177664 := by
  unfold mulDouble
  rw [fl64_of_binade (379 / 500 * 100) 6 (by norm_num [abs_of_pos]) (by norm_num [abs_of_pos])
    (by norm_num)]
  simp only [roundHalfEven]
  norm_num

/-- The binary64 product of the double nearest 0.71 and 100 is exactly 71,
    although the exact product is below 71. -/
theorem mulDouble_double071 :
    mulDouble (799388933858263 / 1125899906842624) 100 = 71 ∧
    (799388933858263 / 1125899906842624 : ℚ) * 100 < 71 := by
  unfold mulDouble
  rw [fl64_of_binade (799388933858263 / 1125899906842624 * 100) 6
    (by norm_num [abs_of_pos]) (by norm_num [abs_of_pos]) (by norm_num)]
  simp only [roundHalfEven]
  norm_num

/-! ## Lemmas about the matching loop -/

/-- The loop over `a ++ b` is the loop over `a` followed by the loop over `b`
    from the index and the running best reached after `a`. -/
theorem MatchFace_loop_append (cv : OpenCV) (s : FaceRecognition) (face : Mat)
    (a b : List Mat) : ∀ (i : Nat) (bm : ℚ) (bn : String),
    MatchFace_loop cv s face (a ++ b) i bm bn =
      (MatchFace_loop cv s face a i bm bn).bind
        (fun r => MatchFace_loop cv s face b (i + a.length) r.1 r.2) := by
  induction a with
  | nil => intro i bm bn; simp [MatchFace_loop]
  | cons img rest ih =>
    intro i bm bn
    simp only [List.cons_append, MatchFace_loop, List.length_cons]
    have e : i + (rest.length + 1) = i + 1 + rest.length := by omega
    rw [e]
    split
    · split
      · rfl
      · split <;> exact ih _ _ _
    · exact ih _ _ _

/-- Entries that do not beat the running best leave it unchanged. -/
theorem MatchFace_loop_no_update (cv : OpenCV) (s : FaceRecognition) (face : Mat)
    (imgs : List Mat) : ∀ (i : Nat) (bm : ℚ) (bn : String),
    (∀ img ∈ imgs, correlation cv face img ≤ bm) →
    MatchFace_loop cv s face imgs i bm bn = some (bm, bn) := by
  induction imgs with
  | nil => intro i bm bn _; rfl
  | cons img rest ih =>
    intro i bm bn h
    have h1 : ¬ cv.compareHist (cv.calcHist face) (cv.calcHist img) > bm :=
      not_lt.mpr (h img (List.mem_cons_self _ _))
    simp only [MatchFace_loop, h1, if_false]
    exact ih _ _ _ (fun x hx => h x (List.mem_cons_of_mem _ hx))

/-- With a label for every visited index the loop finishes, and its best score
    is an upper bound of the start value and of every visited score, attained
    by the start value or by a visited entry. -/
theorem MatchFace_loop_best (cv : OpenCV) (s : FaceRecognition) (face : Mat)
    (imgs : List Mat) : ∀ (i : Nat) (bm : ℚ) (bn : String),
    i + imgs.length ≤ s.m_trainingLabels.length →
    ∃ bm' bn', MatchFace_loop cv s face imgs i bm bn = some (bm', bn') ∧
      bm ≤ bm' ∧ (∀ img ∈ imgs, correlation cv face img ≤ bm') ∧
      (bm' = bm ∨ ∃ img ∈ imgs, bm' = correlation cv face img) := by
  induction imgs with
  | nil => intro i bm bn _; exact ⟨bm, bn, rfl, le_refl _, by simp, Or.inl rfl⟩
  | cons img rest ih =>
    intro i bm bn h
    simp only [List.length_cons] at h
    have hi : i < s.m_trainingLabels.length := by omega
    have hrest : i + 1 + rest.length ≤ s.m_trainingLabels.length := by omega
    simp only [MatchFace_loop]
    by_cases hc : cv.compareHist (cv.calcHist face) (cv.calcHist img) > bm
    · simp only [hc, if_true, List.getElem?_eq_getElem hi]
      have key : ∀ bn1, ∃ bm' bn', MatchFace_loop cv s face rest (i + 1)
            (cv.compareHist (cv.calcHist face) (cv.calcHist img)) bn1 = some (bm', bn') ∧
          bm ≤ bm' ∧ (∀ x ∈ img :: rest, correlation cv face x ≤ bm') ∧
          (bm' = bm ∨ ∃ x ∈ img :: rest, bm' = correlation cv face x) := by
        intro bn1
        obtain ⟨bm', bn', e, h1, h2, h3⟩ := ih (i + 1) _ bn1 hrest
        refine ⟨bm', bn', e, le_trans (le_of_lt hc) h1, ?_, ?_⟩
        · intro x hx
          rcases List.mem_cons.mp hx with rfl | hx
          · exact h1
          · exact h2 x hx
        · right
          rcases h3 with h3 | ⟨x, hx, h3⟩
          · exact ⟨img, List.mem_cons_self _ _, h3⟩
          · exact ⟨x, List.mem_cons_of_mem _ hx, h3⟩
      split <;> exact key _
    · simp only [hc, if_false]
      obtain ⟨bm', bn', e, h1, h2, h3⟩ := ih (i + 1) bm bn hrest
      refine ⟨bm', bn', e, h1, ?_, ?_⟩
      · intro x hx
        rcases List.mem_cons.mp hx with rfl | hx
        · exact le_trans (not_lt.mp hc) h1
        · exact h2 x hx
      · rcases h3 with h3 | ⟨x, hx, h3⟩
        · exact Or.inl h3
        · exact Or.inr ⟨x, List.mem_cons_of_mem _ hx, h3⟩


/-! ## Matching: tie-break, threshold and percent -/

/-- The loop result when entry `i` is the first to reach the maximal score `c > -1`. -/
theorem MatchFace_loop_first_max (cv : OpenCV) (s : FaceRecognition) (face : Mat)
    (i : Nat) (e : Mat) (label : Int)
    (hlen : s.m_trainingLabels.length = s.m_trainingImages.length)
    (himg : s.m_trainingImages[i]? = some e)
    (hlab : s.m_trainingLabels[i]? = some label)
    (hmax : ∀ img ∈ s.m_trainingImages, correlation cv face img ≤ correlation cv face e)
    (hfirst : ∀ j img, j < i → s.m_trainingImages[j]? = some img →
      correlation cv face img < correlation cv face e)
    (hpos : -1 < correlation cv face e) :
    ∃ bn0, MatchFace_loop cv s face s.m_trainingImages 0 (-1) "未知" =
      some (correlation cv face e, (mapFind s.m_labelToName label).getD bn0) := by
  obtain ⟨hi, hie⟩ := List.getElem?_eq_some_iff.mp himg
  have hsplit : s.m_trainingImages =
      s.m_trainingImages.take i ++ e :: s.m_trainingImages.drop (i + 1) := by
    rw [← hie, ← List.drop_eq_getElem_cons hi, List.take_append_drop]
  have htl : (s.m_trainingImages.take i).length = i := by
    rw [List.length_take]; omega
  -- the entries before `i`
  have hpre : ∀ img ∈ s.m_trainingImages.take i,
      correlation cv face img < correlation cv face e := by
    intro img hm
    obtain ⟨j, hj, rfl⟩ := List.getElem_of_mem hm
    rw [htl] at hj
    refine hfirst j _ hj ?_
    rw [List.getElem_take]
    exact List.getElem?_eq_getElem _
  obtain ⟨bm1, bn1, e1, hb1, hb2, hb3⟩ :=
    MatchFace_loop_best cv s face (s.m_trainingImages.take i) 0 (-1) "未知"
      (by rw [htl]; omega)
  have hbm1 : bm1 < correlation cv face e := by
    rcases hb3 with h | ⟨x, hx, h⟩
    · rw [h]; exact hpos
    · rw [h]; exact hpre x hx
  have hpost : ∀ img ∈ s.m_trainingImages.drop (i + 1),
      correlation cv face img ≤ correlation cv face e :=
    fun img hm => hmax img (List.mem_of_mem_drop hm)
  refine ⟨bn1, ?_⟩
  rw [hsplit, MatchFace_loop_append, e1]
  simp only [Option.bind_some, htl, Nat.zero_add, MatchFace_loop]
  have hgt : cv.compareHist (cv.calcHist face) (cv.calcHist e) > bm1 := hbm1
  show (if cv.compareHist (cv.calcHist face) (cv.calcHist e) > bm1 then _ else _) = _
  rw [if_pos hgt, hlab]
  cases hf : mapFind s.m_labelToName label with
  | none =>
    simp only [hf, Option.getD_none]
    exact MatchFace_loop_no_update cv s face _ (i + 1) _ bn1 hpost
  | some name =>
    simp only [hf, Option.getD_some]
    exact MatchFace_loop_no_update cv s face _ (i + 1) _ name hpost

/-- The result of `MatchFace` when entry `i`, with a named label, is the first to reach the
    maximal score and that score is above 0.7. -/
theorem MatchFace_first_max (cv : OpenCV) (s : FaceRecognition) (face : Mat)
    (i : Nat) (e : Mat) (label : Int) (name : String)
    (hlen : s.m_trainingLabels.length = s.m_trainingImages.length)
    (himg : s.m_trainingImages[i]? = some e)
    (hlab : s.m_trainingLabels[i]? = some label)
    (hname : mapFind s.m_labelToName label = some name)
    (hmax : ∀ img ∈ s.m_trainingImages, correlation cv face img ≤ correlation cv face e)
    (hfirst : ∀ j img, j < i → s.m_trainingImages[j]? = some img →
      correlation cv face img < correlation cv face e)
    (hthr : 7 / 10 < correlation cv face e) :
    MatchFace cv s face =
      some (matchText name (castInt (mulDouble (correlation cv face e) 100))) := by
  obtain ⟨hi, _⟩ := List.getElem?_eq_some_iff.mp himg
  obtain ⟨bn0, hloop⟩ := MatchFace_loop_first_max cv s face i e label hlen himg hlab hmax hfirst
    (lt_trans (by norm_num) hthr)
  have hne : s.m_trainingImages.isEmpty = false := by
    cases h : s.m_trainingImages with
    | nil => rw [h] at hi; simp at hi
    | cons a b => rfl
  have hgt : correlation cv face e > 7 / 10 := hthr
  simp [MatchFace, hne, hloop, hname, hgt]

/-- C1 (tie-break in `MatchFace`): in a gallery whose labels all have a name,
    if entry `i` reaches the maximal score, no earlier entry reaches it (later
    ones may tie), and that score is above 0.7, the returned text carries the
    name mapped to the label of entry `i`, the first entry appended among those
    with the maximal score. -/
theorem MatchFace_tie_first (cv : OpenCV) (s : FaceRecognition) (face : Mat)
    (i : Nat) (e : Mat)
    (hlen : s.m_trainingLabels.length = s.m_trainingImages.length)
    (hnamed : ∀ l ∈ s.m_trainingLabels, mapFind s.m_labelToName l ≠ none)
    (himg : s.m_trainingImages[i]? = some e)
    (hmax : ∀ img ∈ s.m_trainingImages, correlation cv face img ≤ correlation cv face e)
    (hfirst : ∀ j img, j < i → s.m_trainingImages[j]? = some img →
      correlation cv face img < correlation cv face e)
    (hthr : 7 / 10 < correlation cv face e) :
    ∃ label name, s.m_trainingLabels[i]? = some label ∧
      mapFind s.m_labelToName label = some name ∧
      MatchFace cv s face =
        some (matchText name (castInt (mulDouble (correlation cv face e) 100))) := by
  obtain ⟨hi, _⟩ := List.getElem?_eq_some_iff.mp himg
  have hil : i < s.m_trainingLabels.length := by omega
  have hlab : s.m_trainingLabels[i]? = some s.m_trainingLabels[i] :=
    List.getElem?_eq_getElem hil
  obtain ⟨name, hname⟩ := Option.ne_none_iff_exists'.mp (hnamed _ (List.getElem_mem hil))
  exact ⟨_, name, hlab, hname,
    MatchFace_first_max cv s face i e _ name hlen himg hlab hname hmax hfirst hthr⟩

/-- Witness for C1 on `tieStore`: entries 1 and 2 hold the probe image, both
    score 1, and the name of entry 1 is returned. -/
theorem MatchFace_tie_first_witness :
    ∃ label name, tieStore.m_trainingLabels[1]? = some label ∧
      mapFind tieStore.m_labelToName label = some name ∧
      MatchFace toyCV tieStore (px 9) =
        some (matchText name (castInt (mulDouble (correlation toyCV (px 9) (px 9)) 100))) :=
  MatchFace_tie_first toyCV tieStore (px 9) 1 (px 9) (by decide)
    (by decide) (by decide)
    (by simp [tieStore, correlation, toyCV, px]; norm_num)
    (by
      intro j img hj h
      have : j = 0 := by omega
      subst this
      simp [tieStore] at h
      subst h
      simp [correlation, toyCV, px]; norm_num)
    (by simp [correlation, toyCV, px]; norm_num)

/-- On `tieStore` the probe `px 9` is answered with the earlier of the two tied entries. -/
theorem MatchFace_tieStore_eval :
    MatchFace toyCV tieStore (px 9) = some "bob (匹配度: 100%)" := by
  simp [MatchFace, MatchFace_loop, tieStore, toyCV, px, mapFind, matchText, castInt]
  norm_num [mulDouble_one_hundred]
  decide

/-- A match text is never the sentinel `"未知"`. -/
theorem matchText_ne_unknown (name : String) (p : Int) : matchText name p ≠ "未知" := by
  intro h
  have hl := congrArg String.length h
  simp only [matchText, String.length_append] at hl
  have h1 : " (匹配度: ".length = 7 := by decide
  have h2 : "未知".length = 2 := by decide
  omega

/-- The value of `bestMatch` after the loop and the shape of `MatchFace`'s result. -/
theorem MatchFace_result (cv : OpenCV) (s : FaceRecognition) (face : Mat) (c : ℚ)
    (hlen : s.m_trainingLabels.length = s.m_trainingImages.length)
    (hc : ∃ img ∈ s.m_trainingImages, correlation cv face img = c)
    (hmax : ∀ img ∈ s.m_trainingImages, correlation cv face img ≤ c) :
    ∃ bestName, MatchFace cv s face =
      if c > 7 / 10 then some (matchText bestName (castInt (mulDouble c 100))) else some "未知" := by
  obtain ⟨bm, bn, e, h1, h2, h3⟩ :=
    MatchFace_loop_best cv s face s.m_trainingImages 0 (-1) "未知" (by omega)
  obtain ⟨img0, hm0, hc0⟩ := hc
  have hne : s.m_trainingImages.isEmpty = false := by
    cases h : s.m_trainingImages with
    | nil => rw [h] at hm0; simp at hm0
    | cons a b => rfl
  refine ⟨bn, ?_⟩
  simp only [MatchFace, hne, e, Bool.false_eq_true, if_false]
  rcases h3 with h3 | ⟨x, hx, h3⟩
  · -- nothing beat the start value -1, so c ≤ -1
    have hcle : c ≤ -1 := by rw [← hc0, ← h3]; exact h2 img0 hm0
    have hn1 : ¬ bm > 7 / 10 := by rw [h3]; norm_num
    have hn2 : ¬ c > 7 / 10 := by
      intro h; have : (7 / 10 : ℚ) < -1 := lt_of_lt_of_le h hcle
      norm_num at this
    rw [if_neg hn1, if_neg hn2]
  · have hbc : bm = c := by
      apply le_antisymm
      · rw [h3]; exact hmax x hx
      · rw [← hc0]; exact h2 img0 hm0
    rw [hbc]

/-- Every non-empty gallery has a best score against a probe: a score attained
    by an entry and not exceeded by any entry. -/
theorem exists_best_correlation (cv : OpenCV) (face : Mat) (imgs : List Mat)
    (hne : imgs ≠ []) :
    ∃ c, (∃ img ∈ imgs, correlation cv face img = c) ∧
      ∀ img ∈ imgs, correlation cv face img ≤ c := by
  induction imgs with
  | nil => exact absurd rfl hne
  | cons a rest ih =>
    cases hr : rest with
    | nil =>
      refine ⟨correlation cv face a, ⟨a, by simp, rfl⟩, ?_⟩
      intro img himg
      simp only [List.mem_singleton] at himg
      rw [himg]
    | cons b tl =>
      obtain ⟨c, ⟨x, hx, hxc⟩, hmax⟩ := ih (by rw [hr]; simp)
      rw [hr] at hx hmax
      by_cases hac : correlation cv face a ≤ c
      · refine ⟨c, ⟨x, List.mem_cons_of_mem _ hx, hxc⟩, ?_⟩
        intro img himg
        rcases List.mem_cons.mp himg with h | h
        · rw [h]; exact hac
        · exact hmax img h
      · refine ⟨correlation cv face a, ⟨a, List.mem_cons_self _ _, rfl⟩, ?_⟩
        intro img himg
        rcases List.mem_cons.mp himg with h | h
        · rw [h]
        · exact le_trans (hmax img h) (le_of_lt (not_le.mp hac))

/-- C2 (threshold boundary in `MatchFace`): when `c` is the best score over the
    entries of a gallery (attained by an entry, so the gallery is non-empty, and
    an upper bound of all scores), the result is a match text iff `c > 0.7`;
    otherwise, and in particular at `c = 0.7`, it is the sentinel "未知". -/
theorem MatchFace_threshold (cv : OpenCV) (s : FaceRecognition) (face : Mat) (c : ℚ)
    (hlen : s.m_trainingLabels.length = s.m_trainingImages.length)
    (hc : ∃ img ∈ s.m_trainingImages, correlation cv face img = c)
    (hmax : ∀ img ∈ s.m_trainingImages, correlation cv face img ≤ c) :
    ((∃ name p, MatchFace cv s face = some (matchText name p)) ↔ 7 / 10 < c) ∧
    (¬ 7 / 10 < c → MatchFace cv s face = some "未知") ∧
    (c = 7 / 10 → MatchFace cv s face = some "未知") := by
  obtain ⟨bn, hr⟩ := MatchFace_result cv s face c hlen hc hmax
  have hle : ¬ 7 / 10 < c → MatchFace cv s face = some "未知" := by
    intro h
    rw [hr, if_neg h]
  refine ⟨⟨?_, ?_⟩, hle, ?_⟩
  · rintro ⟨name, p, h⟩
    by_contra hn
    rw [hle hn] at h
    exact matchText_ne_unknown name p (Option.some.inj h).symm
  · intro h
    exact ⟨bn, _, by rw [hr, if_pos h]⟩
  · intro h
    exact hle (by rw [h]; exact lt_irrefl _)

/-- Witness for C2: a probe scoring exactly 0.7 against the only entry is
    answered "未知" and not with a match text. -/
theorem MatchFace_threshold_witness :
    MatchFace toyCV thresholdStore (px 300) = some "未知" ∧
    ¬ ∃ name p, MatchFace toyCV thresholdStore (px 300) = some (matchText name p) :=
  have h := MatchFace_threshold toyCV thresholdStore (px 300) (7 / 10) (by decide)
    ⟨px 0, by simp [thresholdStore], by simp [correlation, toyCV, px]; norm_num⟩
    (by simp [thresholdStore, correlation, toyCV, px]; norm_num)
  ⟨h.2.2 rfl, fun hm => absurd (h.1.mp hm) (lt_irrefl _)⟩

/-- Truncation toward zero is the floor on non-negative values. -/
theorem castInt_of_nonneg (x : ℚ) (h : 0 ≤ x) : castInt x = ⌊x⌋ := by
  simp [castInt, h]

/-- C3 (amended): for a match with best score `c > 0.7`, `c × 100` within the
    `int` range, the percent in the result is the binary64 product `c × 100`
    truncated toward zero. It is at least `⌊c × 100⌋` and at most `⌈c × 100⌉`:
    the floor of the exact product, except where the binary64 product rounds
    up to the next integer. -/
theorem MatchFace_percent_trunc (cv : OpenCV) (s : FaceRecognition) (face : Mat) (c : ℚ)
    (hlen : s.m_trainingLabels.length = s.m_trainingImages.length)
    (hc : ∃ img ∈ s.m_trainingImages, correlation cv face img = c)
    (hmax : ∀ img ∈ s.m_trainingImages, correlation cv face img ≤ c)
    (hthr : 7 / 10 < c) (hub : c * 100 < 2147483648) :
    (∃ name, MatchFace cv s face = some (matchText name ⌊mulDouble c 100⌋)) ∧
    ⌊c * 100⌋ ≤ ⌊mulDouble c 100⌋ ∧ ⌊mulDouble c 100⌋ ≤ ⌈c * 100⌉ := by
  have hpos : (0 : ℚ) < c * 100 := by
    have : (0 : ℚ) < c := lt_trans (by norm_num) hthr
    positivity
  have habs : |c * 100| < 2 ^ 53 := by
    rw [abs_of_pos hpos]
    exact lt_trans hub (by norm_num)
  have h0 := (fl64_int_bounds (c * 100) 0 habs).1 (by exact_mod_cast le_of_lt hpos)
  have hlo := (fl64_int_bounds (c * 100) ⌊c * 100⌋ habs).1 (Int.floor_le _)
  have hhi := (fl64_int_bounds (c * 100) ⌈c * 100⌉ habs).2 (Int.le_ceil _)
  obtain ⟨bn, hr⟩ := MatchFace_result cv s face c hlen hc hmax
  refine ⟨⟨bn, ?_⟩, Int.le_floor.mpr hlo, ?_⟩
  · rw [hr, if_pos hthr, castInt_of_nonneg]
    exact_mod_cast h0
  · exact Int.cast_le.mp (le_trans (Int.floor_le _) hhi)

/-- Witness for the amended C3: every score is the double nearest 0.71; the
    percent lies between `⌊c × 100⌋` and `⌈c × 100⌉`. -/
theorem MatchFace_percent_trunc_witness :
    (∃ name, MatchFace constCV thresholdStore (px 1) =
      some (matchText name ⌊mulDouble double071 100⌋)) ∧
    ⌊double071 * 100⌋ ≤ ⌊mulDouble double071 100⌋ ∧
    ⌊mulDouble double071 100⌋ ≤ ⌈double071 * 100⌉ :=
  MatchFace_percent_trunc constCV thresholdStore (px 1) double071 (by decide)
    ⟨px 0, by simp [thresholdStore], by simp [correlation, constCV]⟩
    (by simp [thresholdStore, correlation, constCV])
    (by norm_num [double071]) (by norm_num [double071])

/-- At the double nearest 0.71 the result shows 71, one above the floor of the
    exact product `70.99…`. -/
theorem MatchFace_percent_double071_eval :
    MatchFace constCV thresholdStore (px 1) = some "alice (匹配度: 71%)" ∧
    ⌊double071 * 100⌋ = 70 := by
  constructor
  · simp [MatchFace, MatchFace_loop, thresholdStore, constCV, toyCV, px, mapFind, matchText,
      castInt]
    norm_num [double071, mulDouble_double071.1]
    decide
  · norm_num [double071]

/-- C3 (counterexample): the only entry scores 0.758 against the probe; the
    result shows 75, while `round(0.758 × 100) = 76`. -/
theorem MatchFace_percent_not_round :
    correlation toyCV (px 242) (px 0) = 379 / 500 ∧
    MatchFace toyCV thresholdStore (px 242) = some "alice (匹配度: 75%)" ∧
    round ((379 / 500 : ℚ) * 100) = 76 ∧
    MatchFace toyCV thresholdStore (px 242) ≠
      some (matchText "alice" (round ((379 / 500 : ℚ) * 100))) := by
  have h1 : correlation toyCV (px 242) (px 0) = 379 / 500 := by
    simp [correlation, toyCV, px]; norm_num
  have h2 : MatchFace toyCV thresholdStore (px 242) = some "alice (匹配度: 75%)" := by
    simp [MatchFace, MatchFace_loop, thresholdStore, toyCV, px, mapFind, matchText, castInt]
    norm_num [mulDouble_0758]
    decide
  have h3 : round ((379 / 500 : ℚ) * 100) = 76 := by norm_num [round_eq]
  refine ⟨h1, h2, h3, ?_⟩
  rw [h2, h3]
  decide

/-! ## Enrolment and self-recognition -/

/-- Looking up after `m[k] = v`: the new value at `k`, the old mapping elsewhere. -/
theorem mapFind_mapAssign (m : List (Int × String)) (k : Int) (v : String) (k' : Int) :
    mapFind (mapAssign m k v) k' = if k' = k then some v else mapFind m k' := by
  induction m with
  | nil => simp [mapAssign, mapFind]
  | cons hd tl ih =>
    obtain ⟨a, b⟩ := hd
    simp only [mapAssign]
    by_cases h1 : k < a
    · simp [h1, mapFind]
    · by_cases h2 : k = a
      · subst h2
        simp only [lt_self_iff_false, if_false, if_true, mapFind]
        by_cases h3 : k' = k <;> simp [h3]
      · simp only [h1, h2, if_false, mapFind, ih]
        by_cases h3 : k' = a
        · have : ¬ k' = k := fun h => h2 (h ▸ h3)
          simp [h3, Ne.symm h2]
        · simp [h3]

/-- The effect of a successful `AddFace`. -/
theorem AddFace_success (cv : OpenCV) (s : FaceRecognition) (name : String) (image : Mat)
    (h : (AddFace cv s name image).1 = true) :
    s.m_initialized = true ∧
    ∃ r rest, DetectFaces cv s image = r :: rest ∧
      AddFace cv s name image = (true, { s with
        m_trainingImages := s.m_trainingImages ++ [PreprocessFace cv (cv.roi image r)]
        m_trainingLabels := s.m_trainingLabels ++ [s.m_nextLabel]
        m_labelToName := mapAssign s.m_labelToName s.m_nextLabel name
        m_nextLabel := s.m_nextLabel + 1 }) := by
  unfold AddFace at h ⊢
  cases hi : s.m_initialized with
  | false => simp [hi] at h
  | true =>
    refine ⟨rfl, ?_⟩
    cases hd : DetectFaces cv s image with
    | nil => simp [hi, hd] at h
    | cons r rest => exact ⟨r, rest, rfl, by simp⟩

/-- A failed `AddFace` leaves the store as it was. -/
theorem AddFace_failure (cv : OpenCV) (s : FaceRecognition) (name : String) (image : Mat)
    (h : (AddFace cv s name image).1 = false) :
    (AddFace cv s name image).2 = s := by
  unfold AddFace at h ⊢
  cases hi : s.m_initialized with
  | false => simp
  | true =>
    cases hd : DetectFaces cv s image with
    | nil => simp
    | cons r rest => simp [hi, hd] at h

/-- A successful `Initialize` only sets `m_initialized`. -/
theorem Initialize_success (cv : OpenCV) (s : FaceRecognition)
    (h : (Initialize cv s).1 = true) :
    (Initialize cv s).2 = { s with m_initialized := true } := by
  unfold Initialize at h ⊢
  split
  · split
    · rename_i h1 h2; simp [h1, h2] at h
    · rfl
  · rfl

/-- From an initialised store whose labels are `0 .. n-1` and whose counter is
    `n`, a sequence of `AddFace` calls leaves labels `0 .. n+k-1` and counter
    `n + k`, where `k` counts the calls that returned `true`. -/
theorem AddFaces_labels (cv : OpenCV) (calls : List (String × Mat)) :
    ∀ (s : FaceRecognition) (n : Nat), s.m_initialized = true →
      s.m_trainingLabels = (List.range n).map Int.ofNat → s.m_nextLabel = n →
      s.m_trainingImages.length = n →
      (AddFaces cv s calls).m_initialized = true ∧
      (AddFaces cv s calls).m_trainingLabels =
        (List.range (n + AddFaces_successes cv s calls)).map Int.ofNat ∧
      (AddFaces cv s calls).m_nextLabel = ((n + AddFaces_successes cv s calls : Nat) : Int) ∧
      (AddFaces cv s calls).m_trainingImages.length = n + AddFaces_successes cv s calls := by
  induction calls with
  | nil => intro s n h1 h2 h3 h4; exact ⟨h1, h2, h3, h4⟩
  | cons c rest ih =>
    intro s n h1 h2 h3 h4
    obtain ⟨name, image⟩ := c
    simp only [AddFaces, AddFaces_successes]
    cases hr : (AddFace cv s name image).1 with
    | false =>
      rw [AddFace_failure cv s name image hr]
      simpa using ih s n h1 h2 h3 h4
    | true =>
      obtain ⟨_, r, rs, _, e⟩ := AddFace_success cv s name image hr
      have := ih (AddFace cv s name image).2 (n + 1) (by rw [e]; exact h1)
        (by rw [e]; simp only; rw [h2, h3, List.range_succ]; simp)
        (by rw [e]; simp only; rw [h3]; push_cast; ring)
        (by rw [e]; simp only; simp [h4])
      have e2 : n + 1 + AddFaces_successes cv (AddFace cv s name image).2 rest =
          n + ((if true = true then 1 else 0) +
            AddFaces_successes cv (AddFace cv s name image).2 rest) := by
        simp; ring
      rw [e2] at this
      exact this

/-- C7 (label assignment within a session): on the store reached from a freshly
    constructed, initialised store by any sequence `calls` of `AddFace` calls, of
    which `k` returned `true`, the labels are `0, …, k-1`, one per image; a next
    call that succeeds appends one entry with label `k` and records `k ↦ name`,
    leaving the other names as they were; a call that fails leaves the store
    unchanged, and it fails exactly when the detector returns no rectangle. -/
theorem AddFace_session_labels (cv : OpenCV) (calls : List (String × Mat))
    (name : String) (image : Mat)
    (hinit : (Initialize cv FaceRecognition.new).1 = true) :
    (AddFaces cv (freshStore cv) calls).m_trainingLabels =
      (List.range (AddFaces_successes cv (freshStore cv) calls)).map Int.ofNat ∧
    (AddFaces cv (freshStore cv) calls).m_trainingImages.length =
      AddFaces_successes cv (freshStore cv) calls ∧
    ((AddFace cv (AddFaces cv (freshStore cv) calls) name image).1 = true →
      (AddFace cv (AddFaces cv (freshStore cv) calls) name image).2.m_trainingLabels =
        (AddFaces cv (freshStore cv) calls).m_trainingLabels ++
          [(AddFaces_successes cv (freshStore cv) calls : Int)] ∧
      (AddFace cv (AddFaces cv (freshStore cv) calls) name image).2.m_trainingImages.length =
        AddFaces_successes cv (freshStore cv) calls + 1 ∧
      mapFind (AddFace cv (AddFaces cv (freshStore cv) calls) name image).2.m_labelToName
        (AddFaces_successes cv (freshStore cv) calls : Int) = some name ∧
      ∀ l : Int, l ≠ (AddFaces_successes cv (freshStore cv) calls : Int) →
        mapFind (AddFace cv (AddFaces cv (freshStore cv) calls) name image).2.m_labelToName l =
          mapFind (AddFaces cv (freshStore cv) calls).m_labelToName l) ∧
    ((AddFace cv (AddFaces cv (freshStore cv) calls) name image).1 = false →
      (AddFace cv (AddFaces cv (freshStore cv) calls) name image).2 =
        AddFaces cv (freshStore cv) calls) ∧
    (DetectFaces cv (AddFaces cv (freshStore cv) calls) image = [] ↔
      (AddFace cv (AddFaces cv (freshStore cv) calls) name image).1 = false) := by
  have hfresh : freshStore cv = { FaceRecognition.new with m_initialized := true } :=
    Initialize_success cv _ hinit
  obtain ⟨h1, h2, h3, h4⟩ := AddFaces_labels cv calls (freshStore cv) 0
    (by rw [hfresh]) (by rw [hfresh]; rfl) (by rw [hfresh]; rfl) (by rw [hfresh]; rfl)
  simp only [Nat.zero_add] at h2 h3 h4
  generalize AddFaces cv (freshStore cv) calls = s at *
  generalize AddFaces_successes cv (freshStore cv) calls = k at *
  refine ⟨h2, h4, ?_, AddFace_failure cv s name image, ?_⟩
  · intro hr
    obtain ⟨_, r, rs, _, e⟩ := AddFace_success cv s name image hr
    rw [e]
    simp only
    refine ⟨by rw [h3], by simp [h4], by rw [h3, mapFind_mapAssign, if_pos rfl], ?_⟩
    intro l hl
    rw [h3, mapFind_mapAssign, if_neg hl]
  · unfold AddFace
    rw [h1]
    cases DetectFaces cv s image <;> simp

/-- Witness for C7: after `sessionCalls` (two successes, one failure) a
    successful call for "cat" gets label 2. -/
theorem AddFace_session_labels_witness :
    (Initialize toyCV FaceRecognition.new).1 = true ∧
    (AddFace toyCV (AddFaces toyCV (freshStore toyCV) sessionCalls) "cat" (px 5)).1 = true ∧
    (AddFace toyCV (AddFaces toyCV (freshStore toyCV) sessionCalls) "cat" (px 5)).2.m_trainingLabels =
      (AddFaces toyCV (freshStore toyCV) sessionCalls).m_trainingLabels ++
        [(AddFaces_successes toyCV (freshStore toyCV) sessionCalls : Int)] ∧
    mapFind (AddFace toyCV (AddFaces toyCV (freshStore toyCV) sessionCalls) "cat" (px 5)).2.m_labelToName
      (AddFaces_successes toyCV (freshStore toyCV) sessionCalls : Int) = some "cat" :=
  have h := (AddFace_session_labels toyCV sessionCalls "cat" (px 5) (by decide)).2.2.1 (by decide)
  ⟨by decide, by decide, h.1, h.2.2.1⟩

/-- The stores of the C7 witness, evaluated. -/
theorem AddFace_session_eval :
    AddFaces toyCV (freshStore toyCV) sessionCalls =
      { m_trainingImages := [px 3, px 4]
        m_trainingLabels := [0, 1]
        m_labelToName := [(0, "ann"), (1, "bob")]
        m_nextLabel := 2
        m_cameraRunning := false
        m_initialized := true } ∧
    AddFaces_successes toyCV (freshStore toyCV) sessionCalls = 2 ∧
    (AddFace toyCV (AddFaces toyCV (freshStore toyCV) sessionCalls) "cat" (px 5)).2 =
      { m_trainingImages := [px 3, px 4, px 5]
        m_trainingLabels := [0, 1, 2]
        m_labelToName := [(0, "ann"), (1, "bob"), (2, "cat")]
        m_nextLabel := 3
        m_cameraRunning := false
        m_initialized := true } := by
  decide

/-! ## Persistence -/

/-- Skipping whitespace never lengthens the input. -/
theorem skipws_length_le (cs : List Char) : (skipws cs).length ≤ cs.length := by
  induction cs with
  | nil => simp [skipws]
  | cons c cs ih =>
    simp only [skipws]
    split
    · simp only [List.length_cons]; omega
    · exact le_refl _

/-- Reading digits never lengthens the input. -/
theorem readDigits_length_le (cs : List Char) :
    ∀ acc, (readDigits cs acc).2.length ≤ cs.length := by
  induction cs with
  | nil => intro acc; simp [readDigits]
  | cons c cs ih =>
    intro acc
    simp only [readDigits]
    split
    · have := ih (acc * 10 + (c.toNat - 48))
      simp only [List.length_cons]; omega
    · exact le_refl _

/-- Reading a word never lengthens the input. -/
theorem readNonSpace_length_le (cs : List Char) :
    (readNonSpace cs).2.length ≤ cs.length := by
  induction cs with
  | nil => simp [readNonSpace]
  | cons c cs ih =>
    simp only [readNonSpace]
    split
    · exact le_refl _
    · simp only [List.length_cons]; omega

/-- A successful `>> label` consumes at least one character. -/
theorem readInt_length_lt (cs : List Char) (v : Int) (r : List Char)
    (h : readInt cs = some (v, r)) : r.length < cs.length := by
  unfold readInt at h
  have hs := skipws_length_le cs
  cases hsk : skipws cs with
  | nil => simp [hsk] at h
  | cons c rest =>
    rw [hsk] at h hs
    simp only [List.length_cons] at hs
    simp only at h
    have hbl : (if c.toNat = 45 ∨ c.toNat = 43 then rest else c :: rest).length ≤
        rest.length + 1 := by
      split <;> simp
    generalize (if c.toNat = 45 ∨ c.toNat = 43 then rest else c :: rest) = body at h hbl
    cases body with
    | nil => simp at h
    | cons d tl =>
      simp only at h
      by_cases hd : isdigit d = true
      · rw [if_pos hd] at h
        have hr : (readDigits (d :: tl) 0).2.length < (d :: tl).length := by
          simp only [readDigits, hd, if_true]
          have := readDigits_length_le tl (0 * 10 + (d.toNat - 48))
          simp only [List.length_cons]; omega
        have key : ∀ (p : Prop) [Decidable p] (x y : Int × List Char),
            (if p then none else some x) = some y → x = y := by
          intro p _ x y hh
          split at hh
          · exact absurd hh (by simp)
          · exact Option.some.inj hh
        have h2 := congrArg Prod.snd (key _ _ _ h)
        simp only at h2
        rw [h2] at hr
        omega
      · rw [if_neg hd] at h
        exact absurd h (by simp)

/-- A successful `>> name` consumes at least one character. -/
theorem readWord_length_lt (cs : List Char) (w : String) (r : List Char)
    (h : readWord cs = some (w, r)) : r.length < cs.length := by
  unfold readWord at h
  have hs := skipws_length_le cs
  cases hsk : skipws cs with
  | nil => simp [hsk] at h
  | cons c rest =>
    rw [hsk] at h hs
    simp only [Option.some.injEq, Prod.mk.injEq] at h
    have hc : isspace c = false := by
      cases cs with
      | nil => simp [skipws] at hsk
      | cons a as =>
        by_contra hcon
        simp only [Bool.not_eq_false] at hcon
        -- the head of `skipws` output is never a space
        have : ∀ l : List Char, ∀ x xs, skipws l = x :: xs → isspace x = false := by
          intro l
          induction l with
          | nil => intro x xs hx; simp [skipws] at hx
          | cons y ys ih =>
            intro x xs hx
            simp only [skipws] at hx
            split at hx
            · exact ih x xs hx
            · rename_i hy
              simp only [List.cons.injEq] at hx
              rw [← hx.1]; simpa using hy
        rw [this _ _ _ hsk] at hcon
        exact absurd hcon (by simp)
    have hr : (readNonSpace (c :: rest)).2.length ≤ rest.length := by
      simp only [readNonSpace, hc]
      exact readNonSpace_length_le rest
    rw [h.2] at hr
    simp only [List.length_cons] at hs
    omega

/-- Fuel equal to the input length is enough: more fuel extracts the same pairs. -/
theorem mapFileEntries_fuel (fuel : Nat) : ∀ (cs : List Char) (extra : Nat),
    cs.length ≤ fuel → mapFileEntries (fuel + extra) cs = mapFileEntries fuel cs := by
  induction fuel with
  | zero =>
    intro cs extra h
    have hcs : cs = [] := List.length_eq_zero.mp (Nat.le_zero.mp h)
    subst hcs
    cases extra with
    | zero => rfl
    | succ e => simp [mapFileEntries, readInt, skipws]
  | succ n ih =>
    intro cs extra h
    have e : n + 1 + extra = (n + extra) + 1 := by omega
    rw [e]
    simp only [mapFileEntries]
    cases h1 : readInt cs with
    | none => rfl
    | some p1 =>
      obtain ⟨label, cs1⟩ := p1
      have l1 := readInt_length_lt cs label cs1 h1
      cases h2 : readWord cs1 with
      | none => simp only [h2]
      | some p2 =>
        obtain ⟨name, cs2⟩ := p2
        have l2 := readWord_length_lt cs1 name cs2 h2
        simp only [h2]
        rw [ih cs2 extra (by omega)]

/-- The loop of `LoadTrainingData` assigns the extracted pairs in file order and
    moves the counter, pair by pair, to one past a label that is not below it. -/
theorem readMap_loop_eq (fuel : Nat) : ∀ (cs : List Char) (m : List (Int × String)) (next : Int),
    readMap_loop fuel cs m next =
      ((mapFileEntries fuel cs).foldl (fun acc e => mapAssign acc e.1 e.2) m,
       (mapFileEntries fuel cs).foldl
         (fun n e => if e.1 ≥ n then wrapInt32 (e.1 + 1) else n) next) := by
  induction fuel with
  | zero => intro cs m next; rfl
  | succ n ih =>
    intro cs m next
    simp only [readMap_loop, mapFileEntries]
    cases h1 : readInt cs with
    | none => rfl
    | some p1 =>
      obtain ⟨label, cs1⟩ := p1
      cases h2 : readWord cs1 with
      | none => simp only [h2, List.foldl_nil]
      | some p2 =>
        obtain ⟨name, cs2⟩ := p2
        simp only [h2, List.foldl_cons]
        rw [ih]

/-- Below `INT_MAX` the successor stored into the counter does not wrap. -/
theorem wrapInt32_succ (l : Int) (hlo : -2147483648 ≤ l) (hhi : l < 2147483647) :
    wrapInt32 (l + 1) = l + 1 := by
  unfold wrapInt32
  omega

/-- Over labels below `INT_MAX` the counter ends at the larger of its start
    value and `m + 1`, where `m` is the largest label. -/
theorem foldl_counter_max (es : List (Int × String)) (m : Int)
    (hrange : ∀ e ∈ es, -2147483648 ≤ e.1 ∧ e.1 < 2147483647)
    (hm : ∃ e ∈ es, e.1 = m) (hmax : ∀ e ∈ es, e.1 ≤ m) :
    ∀ next : Int, es.foldl (fun n e => if e.1 ≥ n then wrapInt32 (e.1 + 1) else n) next =
      max next (m + 1) := by
  have key : ∀ (l : List (Int × String)), (∀ e ∈ l, -2147483648 ≤ e.1 ∧ e.1 < 2147483647) →
      ∀ next : Int,
        next ≤ l.foldl (fun n e => if e.1 ≥ n then wrapInt32 (e.1 + 1) else n) next ∧
        (∀ e ∈ l, e.1 + 1 ≤
          l.foldl (fun n e => if e.1 ≥ n then wrapInt32 (e.1 + 1) else n) next) ∧
        (l.foldl (fun n e => if e.1 ≥ n then wrapInt32 (e.1 + 1) else n) next = next ∨
          ∃ e ∈ l, l.foldl (fun n e => if e.1 ≥ n then wrapInt32 (e.1 + 1) else n) next =
            e.1 + 1) := by
    intro l
    induction l with
    | nil => intro _ next; simp
    | cons a rest ih =>
      intro hr next
      have ha := hr a (List.mem_cons_self _ _)
      have hstep : (if a.1 ≥ next then wrapInt32 (a.1 + 1) else next) = max next (a.1 + 1) := by
        rw [wrapInt32_succ a.1 ha.1 ha.2]
        split
        · rw [max_eq_right]; omega
        · rw [max_eq_left]; omega
      obtain ⟨h1, h2, h3⟩ := ih (fun e he => hr e (List.mem_cons_of_mem _ he))
        (max next (a.1 + 1))
      simp only [List.foldl_cons, hstep]
      refine ⟨le_trans (le_max_left _ _) h1, ?_, ?_⟩
      · intro e he
        rcases List.mem_cons.mp he with h | h
        · rw [h]; exact le_trans (le_max_right _ _) h1
        · exact h2 e h
      · rcases h3 with h3 | ⟨e, he, h3⟩
        · rcases le_total next (a.1 + 1) with h | h
          · right
            exact ⟨a, List.mem_cons_self _ _, by rw [h3, max_eq_right h]⟩
          · left
            rw [h3, max_eq_left h]
        · exact Or.inr ⟨e, List.mem_cons_of_mem _ he, h3⟩
  intro next
  obtain ⟨h1, h2, h3⟩ := key es hrange next
  obtain ⟨e0, he0, hem⟩ := hm
  apply le_antisymm
  · rcases h3 with h3 | ⟨e, he, h3⟩
    · rw [h3]; exact le_max_left _ _
    · rw [h3]
      exact le_trans (by have := hmax e he; omega) (le_max_right _ _)
  · exact max_le h1 (by rw [← hem]; exact h2 e0 he0)


/-- The code of a decimal digit character. -/
theorem digitChar_toNat (m : Nat) (h : m < 10) : (Nat.digitChar m).toNat = 48 + m := by
  interval_cases m <;> rfl

/-- A decimal digit character is a digit for `isdigit`. -/
theorem digitChar_isdigit (m : Nat) (h : m < 10) : isdigit (Nat.digitChar m) = true := by
  interval_cases m <;> rfl

/-- With enough fuel, `Nat.toDigitsCore 10` puts in front of the accumulator a
    non-empty run of digits whose value is the number. -/
theorem toDigitsCore_digits (fuel : Nat) : ∀ (n : Nat) (ds : List Char), n < fuel →
    ∃ pre, Nat.toDigitsCore 10 fuel n ds = pre ++ ds ∧ pre ≠ [] ∧
      (∀ c ∈ pre, isdigit c = true) ∧
      ∀ a, digitsValue pre a = a * 10 ^ pre.length + n := by
  induction fuel with
  | zero => intro n ds h; omega
  | succ f ih =>
    intro n ds h
    simp only [Nat.toDigitsCore]
    have hm : n % 10 < 10 := Nat.mod_lt _ (by norm_num)
    by_cases h0 : n / 10 = 0
    · rw [if_pos h0]
      refine ⟨[Nat.digitChar (n % 10)], rfl, by simp, ?_, ?_⟩
      · intro c hc
        rw [List.mem_singleton.mp hc]
        exact digitChar_isdigit _ hm
      · intro a
        simp only [digitsValue, List.foldl_cons, List.foldl_nil, List.length_singleton,
          digitChar_toNat _ hm]
        omega
    · rw [if_neg h0]
      obtain ⟨pre, e, hne, hd, hv⟩ := ih (n / 10) (Nat.digitChar (n % 10) :: ds) (by omega)
      refine ⟨pre ++ [Nat.digitChar (n % 10)], by rw [e]; simp, by simp, ?_, ?_⟩
      · intro c hc
        rcases List.mem_append.mp hc with hc | hc
        · exact hd c hc
        · rw [List.mem_singleton.mp hc]
          exact digitChar_isdigit _ hm
      · intro a
        have := hv a
        simp only [digitsValue] at this
        simp only [digitsValue, List.foldl_append, List.foldl_cons, List.foldl_nil, this,
          List.length_append, List.length_singleton, digitChar_toNat _ hm, pow_succ]
        have h2 := Nat.div_add_mod n 10
        have : 48 + n % 10 - 48 = n % 10 := by omega
        rw [this]
        nlinarith [h2]


/-- Over a run of digits followed by input that does not start with a digit,
    `readDigits` accumulates the run and stops at its end. -/
theorem readDigits_run (pre rest : List Char) (hpre : ∀ c ∈ pre, isdigit c = true)
    (hrest : ∀ c tl, rest = c :: tl → isdigit c = false) :
    ∀ a, readDigits (pre ++ rest) a = (digitsValue pre a, rest) := by
  induction pre with
  | nil =>
    intro a
    cases rest with
    | nil => rfl
    | cons c tl => simp [readDigits, hrest c tl rfl, digitsValue]
  | cons d ds ih =>
    intro a
    have hd : isdigit d = true := hpre d (List.mem_cons_self _ _)
    show readDigits (d :: (ds ++ rest)) a = _
    simp only [readDigits, hd, if_true]
    rw [ih (fun c hc => hpre c (List.mem_cons_of_mem _ hc))]
    rfl

/-- The decimal rendering of a natural number: a non-empty run of digits whose value is the number. -/
theorem toDigits_digits (n : Nat) :
    Nat.toDigits 10 n ≠ [] ∧ (∀ c ∈ Nat.toDigits 10 n, isdigit c = true) ∧
      digitsValue (Nat.toDigits 10 n) 0 = n := by
  obtain ⟨pre, e, hne, hd, hv⟩ := toDigitsCore_digits (n + 1) n [] (by omega)
  simp only [List.append_nil] at e
  unfold Nat.toDigits
  rw [e]
  exact ⟨hne, hd, by rw [hv 0]; simp⟩

/-- A digit is neither whitespace nor a sign. -/
theorem isdigit_not_space_sign (c : Char) (h : isdigit c = true) :
    isspace c = false ∧ ¬ (c.toNat = 45 ∨ c.toNat = 43) := by
  simp only [isdigit, Bool.and_eq_true, decide_eq_true_eq] at h
  simp only [isspace, Bool.or_eq_false_iff, decide_eq_false_iff_not, Bool.and_eq_false_iff]
  omega

/-- Extraction of an unsigned in-range `int` from input that starts with a digit. -/
theorem readInt_of_digit (d : Char) (tail rest : List Char) (n : Nat)
    (hd : isdigit d = true) (hrun : readDigits (d :: tail) 0 = (n, rest))
    (hhi : (n : Int) ≤ 2147483647) :
    readInt (d :: tail) = some ((n : Int), rest) := by
  obtain ⟨hsp, hsg⟩ := isdigit_not_space_sign d hd
  have hminus : ¬ d.toNat = 45 := fun h => hsg (Or.inl h)
  have hplus : ¬ d.toNat = 43 := fun h => hsg (Or.inr h)
  have h1 : ¬ ((n : Int) < -2147483648 ∨ 2147483647 < (n : Int)) := by omega
  simp only [readInt, skipws, hsp, Bool.false_eq_true, if_false, hd, if_true, hrun,
    hminus, hplus, or_self, decide_False, h1]

/-- Extraction of a negative in-range `int` from input that starts with `-` and a digit. -/
theorem readInt_of_minus (d : Char) (tail rest : List Char) (n : Nat)
    (hd : isdigit d = true) (hrun : readDigits (d :: tail) 0 = (n, rest))
    (hlo : -2147483648 ≤ -(n : Int)) :
    readInt ('-' :: d :: tail) = some (-(n : Int), rest) := by
  have hsp : isspace '-' = false := by decide
  have hm : ('-' : Char).toNat = 45 := by decide
  have h1 : ¬ (-(n : Int) < -2147483648 ∨ 2147483647 < -(n : Int)) := by omega
  simp only [readInt, skipws, hsp, Bool.false_eq_true, if_false, hm, true_or, if_true, hd,
    hrun, decide_True, h1]

/-- Extraction of an `int` reads back what `<<` wrote for a value in the
    32-bit range, and stops at the following non-digit. -/
theorem readInt_toString (v : Int) (rest : List Char)
    (hlo : -2147483648 ≤ v) (hhi : v ≤ 2147483647)
    (hrest : ∀ c tl, rest = c :: tl → isdigit c = false) :
    readInt ((toString v).data ++ rest) = some (v, rest) := by
  cases v with
  | ofNat m =>
    have hs : (toString (Int.ofNat m)).data = Nat.toDigits 10 m := rfl
    obtain ⟨hne, hd, hv⟩ := toDigits_digits m
    rw [hs]
    cases hds : Nat.toDigits 10 m with
    | nil => exact absurd hds hne
    | cons d ds =>
      rw [hds] at hd hv
      have hrun := readDigits_run (d :: ds) rest hd hrest 0
      rw [hv] at hrun
      exact readInt_of_digit d (ds ++ rest) rest m (hd d (List.mem_cons_self _ _)) hrun hhi
  | negSucc m =>
    have hs : (toString (Int.negSucc m)).data = '-' :: Nat.toDigits 10 (m + 1) := rfl
    obtain ⟨hne, hd, hv⟩ := toDigits_digits (m + 1)
    rw [hs]
    cases hds : Nat.toDigits 10 (m + 1) with
    | nil => exact absurd hds hne
    | cons d ds =>
      rw [hds] at hd hv
      have hrun := readDigits_run (d :: ds) rest hd hrest 0
      rw [hv] at hrun
      exact readInt_of_minus d (ds ++ rest) rest (m + 1) (hd d (List.mem_cons_self _ _)) hrun hlo


/-- Over a run without whitespace followed by a whitespace character,
    `readNonSpace` takes the run and stops at the whitespace. -/
theorem readNonSpace_run (pre : List Char) (c : Char) (rest : List Char)
    (hpre : ∀ x ∈ pre, isspace x = false) (hc : isspace c = true) :
    readNonSpace (pre ++ c :: rest) = (pre, c :: rest) := by
  induction pre with
  | nil => simp [readNonSpace, hc]
  | cons d ds ih =>
    have hd : isspace d = false := hpre d (List.mem_cons_self _ _)
    have := ih (fun x hx => hpre x (List.mem_cons_of_mem _ hx))
    show readNonSpace (d :: (ds ++ c :: rest)) = _
    simp only [readNonSpace, hd, Bool.false_eq_true, if_false, this]

/-- Extraction of a `std::string` reads back a non-empty name without
    whitespace that was written after one blank and before a line end. -/
theorem readWord_name (name : String) (rest : List Char)
    (hne : name.data ≠ []) (hns : ∀ x ∈ name.data, isspace x = false) :
    readWord (Char.ofNat 32 :: (name.data ++ Char.ofNat 10 :: rest)) =
      some (name, Char.ofNat 10 :: rest) := by
  have h32 : isspace (Char.ofNat 32) = true := by decide
  have h10 : isspace (Char.ofNat 10) = true := by decide
  have hrun := readNonSpace_run name.data (Char.ofNat 10) rest hns h10
  cases hd : name.data with
  | nil => exact absurd hd hne
  | cons d ds =>
    rw [hd] at hrun hns
    have hdd : isspace d = false := hns d (List.mem_cons_self _ _)
    show readWord (Char.ofNat 32 :: (d :: (ds ++ Char.ofNat 10 :: rest))) = _
    have hrun2 : readNonSpace (d :: (ds ++ Char.ofNat 10 :: rest)) =
        (d :: ds, Char.ofNat 10 :: rest) := hrun
    simp only [readWord, skipws, h32, if_true, hdd, Bool.false_eq_true, if_false, hrun2]
    have : String.mk (d :: ds) = name := by
      rw [← hd]
    rw [this]

/-- Leading whitespace does not change what `>> label` extracts. -/
theorem readInt_skip (c : Char) (cs : List Char) (hc : isspace c = true) :
    readInt (c :: cs) = readInt cs := by
  simp only [readInt, skipws, hc, if_true]

/-- Leading whitespace does not change the pairs the loop extracts. -/
theorem mapFileEntries_skip (fuel : Nat) (c : Char) (cs : List Char) (hc : isspace c = true) :
    mapFileEntries fuel (c :: cs) = mapFileEntries fuel cs := by
  cases fuel with
  | zero => rfl
  | succ f => simp only [mapFileEntries, readInt_skip c cs hc]

/-- The characters `SaveTrainingData` writes for a non-empty map. -/
theorem mapFileText_cons_data (label : Int) (name : String) (rest : List (Int × String)) :
    (mapFileText ((label, name) :: rest)).data =
      (toString label).data ++
        (Char.ofNat 32 :: (name.data ++ Char.ofNat 10 :: (mapFileText rest).data)) := by
  simp only [mapFileText, String.data_append, List.append_assoc]
  rfl

/-- The loop of `LoadTrainingData` extracts from the text written by
    `SaveTrainingData` exactly the pairs of the saved map, when every label fits
    an `int` and every name is non-empty and free of whitespace. -/
theorem mapFileEntries_mapFileText (m : List (Int × String))
    (hint : ∀ e ∈ m, -2147483648 ≤ e.1 ∧ e.1 ≤ 2147483647)
    (hnames : ∀ e ∈ m, e.2.data ≠ [] ∧ ∀ x ∈ e.2.data, isspace x = false) :
    ∀ fuel, m.length ≤ fuel → mapFileEntries fuel (mapFileText m).data = m := by
  induction m with
  | nil =>
    intro fuel _
    cases fuel with
    | zero => rfl
    | succ f => rfl
  | cons e rest ih =>
    intro fuel hf
    obtain ⟨label, name⟩ := e
    cases fuel with
    | zero => simp at hf
    | succ f =>
      have hi := hint (label, name) (List.mem_cons_self _ _)
      have hn := hnames (label, name) (List.mem_cons_self _ _)
      have h1 := readInt_toString label
        (Char.ofNat 32 :: (name.data ++ Char.ofNat 10 :: (mapFileText rest).data)) hi.1 hi.2
        (by
          intro c tl h
          rw [(List.cons.inj h).1.symm]
          decide)
      have h2 := readWord_name name (mapFileText rest).data hn.1 hn.2
      rw [mapFileText_cons_data]
      simp only [mapFileEntries, h1, h2]
      rw [mapFileEntries_skip f _ _ (by decide)]
      rw [ih (fun x hx => hint x (List.mem_cons_of_mem _ hx))
        (fun x hx => hnames x (List.mem_cons_of_mem _ hx)) f
        (by simp only [List.length_cons] at hf; omega)]

/-- Assigning a key above every present key appends the pair. -/
theorem mapAssign_append (acc : List (Int × String)) (k : Int) (v : String)
    (h : ∀ a ∈ acc, a.1 < k) : mapAssign acc k v = acc ++ [(k, v)] := by
  induction acc with
  | nil => rfl
  | cons a as ih =>
    obtain ⟨k', v'⟩ := a
    have hk : k' < k := h (k', v') (List.mem_cons_self _ _)
    have h1 : ¬ k < k' := by omega
    have h2 : ¬ k = k' := by omega
    simp only [mapAssign, h1, h2, if_false, List.cons_append]
    rw [ih (fun x hx => h x (List.mem_cons_of_mem _ hx))]

/-- Assigning the pairs of a key-sorted list in order, into a map whose keys
    are all smaller, appends the list. -/
theorem foldl_mapAssign_sorted (m : List (Int × String)) :
    ∀ acc : List (Int × String), m.Pairwise (fun a b => a.1 < b.1) →
      (∀ a ∈ acc, ∀ b ∈ m, a.1 < b.1) →
      m.foldl (fun acc e => mapAssign acc e.1 e.2) acc = acc ++ m := by
  induction m with
  | nil => intro acc _ _; simp
  | cons e rest ih =>
    intro acc hs hacc
    obtain ⟨hhead, htail⟩ := List.pairwise_cons.mp hs
    simp only [List.foldl_cons]
    rw [mapAssign_append acc e.1 e.2 (fun a ha => hacc a ha e (List.mem_cons_self _ _))]
    rw [ih _ htail]
    · simp
    · intro a ha b hb
      rcases List.mem_append.mp ha with ha | ha
      · exact hacc a ha b (List.mem_cons_of_mem _ hb)
      · rw [List.mem_singleton.mp ha]
        exact hhead b hb


/-- The written text has at least one character per pair. -/
theorem mapFileText_length (m : List (Int × String)) :
    m.length ≤ (mapFileText m).data.length := by
  induction m with
  | nil => simp
  | cons e rest ih =>
    obtain ⟨label, name⟩ := e
    rw [mapFileText_cons_data]
    simp only [List.length_append, List.length_cons]
    omega

/-- The companion path differs from the primary path. -/
theorem map_path_ne (filename : String) : filename ≠ filename ++ ".map" := by
  intro h
  have hl := congrArg String.length h
  rw [String.length_append] at hl
  have : ".map".length = 4 := by decide
  omega

/-- C5 (amended): save/load round trip. For a gallery
    with at least one entry, whose map (key-sorted, as `std::map` keeps it) has
    `int` labels and non-empty names without whitespace, saved to a path whose
    two artifacts can be written, `LoadTrainingData` on the written artifacts
    succeeds from any store and restores the images, the labels and the
    label→name mapping. -/
theorem SaveTrainingData_LoadTrainingData_roundtrip (s t : FaceRecognition)
    (fsys : FileSystem) (filename : String)
    (hne : s.m_trainingImages ≠ [])
    (hw : fsys.writable filename = true)
    (hwm : fsys.writable (filename ++ ".map") = true)
    (hsorted : s.m_labelToName.Pairwise (fun a b => a.1 < b.1))
    (hint : ∀ e ∈ s.m_labelToName, -2147483648 ≤ e.1 ∧ e.1 ≤ 2147483647)
    (hnames : ∀ e ∈ s.m_labelToName, e.2.data ≠ [] ∧ ∀ x ∈ e.2.data, isspace x = false) :
    (SaveTrainingData s fsys filename).1 = true ∧
    (LoadTrainingData t (SaveTrainingData s fsys filename).2 filename).1 = true ∧
    (LoadTrainingData t (SaveTrainingData s fsys filename).2 filename).2.m_trainingImages =
      s.m_trainingImages ∧
    (LoadTrainingData t (SaveTrainingData s fsys filename).2 filename).2.m_trainingLabels =
      s.m_trainingLabels ∧
    (LoadTrainingData t (SaveTrainingData s fsys filename).2 filename).2.m_labelToName =
      s.m_labelToName := by
  have hemp : s.m_trainingImages.isEmpty = false := by
    cases hs : s.m_trainingImages with
    | nil => exact absurd hs hne
    | cons a b => rfl
  have hwm2 : (fsys.write filename
      (File.storage s.m_trainingImages s.m_trainingLabels)).writable (filename ++ ".map") = true :=
    hwm
  have hsave : SaveTrainingData s fsys filename =
      (true, (fsys.write filename (File.storage s.m_trainingImages s.m_trainingLabels)).write
        (filename ++ ".map") (File.text (mapFileText s.m_labelToName))) := by
    simp only [SaveTrainingData, hemp, hw, hwm2, Bool.false_eq_true, if_false, Bool.not_true,
      if_true]
  have hp : ((fsys.write filename (File.storage s.m_trainingImages s.m_trainingLabels)).write
      (filename ++ ".map") (File.text (mapFileText s.m_labelToName))).files filename =
      some (File.storage s.m_trainingImages s.m_trainingLabels) := by
    simp only [FileSystem.write, map_path_ne filename, if_false, if_true]
  have hm : ((fsys.write filename (File.storage s.m_trainingImages s.m_trainingLabels)).write
      (filename ++ ".map") (File.text (mapFileText s.m_labelToName))).files (filename ++ ".map") =
      some (File.text (mapFileText s.m_labelToName)) := by
    simp only [FileSystem.write, if_true]
  have hent := mapFileEntries_mapFileText s.m_labelToName hint hnames
    (mapFileText s.m_labelToName).data.length (mapFileText_length _)
  have hfold := foldl_mapAssign_sorted s.m_labelToName [] hsorted (by simp)
  rw [hsave]
  simp only [LoadTrainingData, hp, hm, readMap_loop_eq, hent, hfold, List.nil_append, and_self]


/-- Witness for the amended C5: the gallery enrolled by `sessionCalls`, saved to
    an empty writable disk and loaded into a fresh store. -/
theorem SaveTrainingData_LoadTrainingData_roundtrip_witness :
    (SaveTrainingData (AddFaces toyCV (freshStore toyCV) sessionCalls) emptyDisk "g.xml").1 = true ∧
    (LoadTrainingData (freshStore toyCV)
      (SaveTrainingData (AddFaces toyCV (freshStore toyCV) sessionCalls) emptyDisk "g.xml").2
      "g.xml").1 = true ∧
    (LoadTrainingData (freshStore toyCV)
      (SaveTrainingData (AddFaces toyCV (freshStore toyCV) sessionCalls) emptyDisk "g.xml").2
      "g.xml").2.m_trainingImages =
      (AddFaces toyCV (freshStore toyCV) sessionCalls).m_trainingImages ∧
    (LoadTrainingData (freshStore toyCV)
      (SaveTrainingData (AddFaces toyCV (freshStore toyCV) sessionCalls) emptyDisk "g.xml").2
      "g.xml").2.m_trainingLabels =
      (AddFaces toyCV (freshStore toyCV) sessionCalls).m_trainingLabels ∧
    (LoadTrainingData (freshStore toyCV)
      (SaveTrainingData (AddFaces toyCV (freshStore toyCV) sessionCalls) emptyDisk "g.xml").2
      "g.xml").2.m_labelToName =
      (AddFaces toyCV (freshStore toyCV) sessionCalls).m_labelToName :=
  SaveTrainingData_LoadTrainingData_roundtrip (AddFaces toyCV (freshStore toyCV) sessionCalls)
    (freshStore toyCV) emptyDisk "g.xml" (by decide) (by decide) (by decide) (by decide)
    (by decide) (by decide)

/-- C5 (counterexample), in two runs. First: one entry named "alice" is saved to
    a disk where "g.xml" can be written and "g.xml.map" cannot; the save
    succeeds, the load into a fresh store succeeds, and the loaded mapping is
    empty. Second: entries named "John Smith" and "bob" are saved to a writable
    disk as the lines "0 John Smith" and "1 bob"; the load succeeds and the
    loaded mapping is `0 ↦ "John"` alone. -/
theorem SaveTrainingData_LoadTrainingData_mapping_lost :
    ((SaveTrainingData thresholdStore primaryOnlyDisk "g.xml").1 = true ∧
     thresholdStore.m_labelToName = [(0, "alice")] ∧
     LoadTrainingData (freshStore toyCV)
        (SaveTrainingData thresholdStore primaryOnlyDisk "g.xml").2 "g.xml" =
       (true,
         { m_trainingImages := [px 0]
           m_trainingLabels := [0]
           m_labelToName := []
           m_nextLabel := 0
           m_cameraRunning := false
           m_initialized := true })) ∧
    ((AddFaces toyCV (freshStore toyCV) spaceCalls).m_labelToName =
       [(0, "John Smith"), (1, "bob")] ∧
     (SaveTrainingData (AddFaces toyCV (freshStore toyCV) spaceCalls) emptyDisk "g.xml").1 = true ∧
     (SaveTrainingData (AddFaces toyCV (freshStore toyCV) spaceCalls) emptyDisk "g.xml").2.files
       "g.xml.map" = some (File.text "0 John Smith\n1 bob\n") ∧
     LoadTrainingData (freshStore toyCV)
       (SaveTrainingData (AddFaces toyCV (freshStore toyCV) spaceCalls) emptyDisk "g.xml").2
       "g.xml" =
       (true,
         { m_trainingImages := [px 3, px 4]
           m_trainingLabels := [0, 1]
           m_labelToName := [(0, "John")]
           m_nextLabel := 1
           m_cameraRunning := false
           m_initialized := true })) := by
  decide

/-- C6 (amended): after a successful `LoadTrainingData` whose companion `.map`
    file is present and, as the loop reads it, names exactly the loaded labels,
    all below `INT_MAX`, with `m` the largest loaded label, the next successful
    `AddFace` appends the label `max(counter before the load, m + 1)`. -/
theorem LoadTrainingData_next_label (cv : OpenCV) (s : FaceRecognition) (fsys : FileSystem)
    (filename : String) (images : List Mat) (labels : List Int) (content : String)
    (name : String) (image : Mat) (m : Int)
    (hprim : fsys.files filename = some (File.storage images labels))
    (hmap : fsys.files (filename ++ ".map") = some (File.text content))
    (hkeys : ∀ l : Int,
      l ∈ labels ↔ l ∈ (mapFileEntries content.length content.data).map Prod.fst)
    (hrange : ∀ l ∈ labels, -2147483648 ≤ l ∧ l < 2147483647)
    (hm : m ∈ labels) (hmax : ∀ l ∈ labels, l ≤ m)
    (hadd : (AddFace cv (LoadTrainingData s fsys filename).2 name image).1 = true) :
    (LoadTrainingData s fsys filename).1 = true ∧
    (AddFace cv (LoadTrainingData s fsys filename).2 name image).2.m_trainingLabels =
      labels ++ [max s.m_nextLabel (m + 1)] := by
  have hmem : ∀ e ∈ mapFileEntries content.length content.data, e.1 ∈ labels :=
    fun e he => (hkeys e.1).mpr (List.mem_map.mpr ⟨e, he, rfl⟩)
  have hfold := foldl_counter_max (mapFileEntries content.length content.data) m
    (fun e he => hrange e.1 (hmem e he))
    (by
      obtain ⟨e, he, hem⟩ := List.mem_map.mp ((hkeys m).mp hm)
      exact ⟨e, he, hem⟩)
    (fun e he => hmax e.1 (hmem e he)) s.m_nextLabel
  obtain ⟨_, r, rest, _, e⟩ := AddFace_success cv _ name image hadd
  rw [e]
  simp only [LoadTrainingData, hprim, hmap, readMap_loop_eq]
  exact ⟨trivial, by rw [← hfold]; rfl⟩

/-- Witness for the amended C6: a store whose counter is 2 loads a gallery whose
    only label is 0, named in its `.map`; the next enrolment gets label
    `max 2 (0 + 1) = 2`. -/
theorem LoadTrainingData_next_label_witness :
    (LoadTrainingData (AddFaces toyCV (freshStore toyCV) sessionCalls) zoeDisk "g.xml").1 = true ∧
    (AddFace toyCV (LoadTrainingData (AddFaces toyCV (freshStore toyCV) sessionCalls)
        zoeDisk "g.xml").2 "cat" (px 5)).2.m_trainingLabels =
      [0] ++ [max (AddFaces toyCV (freshStore toyCV) sessionCalls).m_nextLabel (0 + 1)] :=
  LoadTrainingData_next_label toyCV (AddFaces toyCV (freshStore toyCV) sessionCalls) zoeDisk
    "g.xml" [px 7] [0] "0 zoe\n" "cat" (px 5) 0 (by decide) (by decide)
    (by
      have h : mapFileEntries "0 zoe\n".length "0 zoe\n".data = [(0, "zoe")] := by decide
      intro l
      rw [h]
      simp)
    (by decide) (by decide) (by decide) (by decide)

/-- At a label equal to `INT_MAX` the counter wraps: a fresh store loads a
    gallery with the single label 2147483647, named in its `.map`, and the next
    successful `AddFace` appends the label -2147483648. -/
theorem LoadTrainingData_next_label_wraps :
    (LoadTrainingData (freshStore toyCV) maxLabelDisk "g.xml").1 = true ∧
    (LoadTrainingData (freshStore toyCV) maxLabelDisk "g.xml").2.m_trainingLabels =
      [2147483647] ∧
    (LoadTrainingData (freshStore toyCV) maxLabelDisk "g.xml").2.m_nextLabel = -2147483648 ∧
    (AddFace toyCV (LoadTrainingData (freshStore toyCV) maxLabelDisk "g.xml").2 "cat"
      (px 5)).2.m_trainingLabels = [2147483647, -2147483648] := by
  decide

/-- C6 (counterexample): a store that enrolled two entries (counter 2) loads a
    saved gallery whose only label is 0, successfully; the next successful
    `AddFace` appends label 2, not `max(loaded labels) + 1 = 1`. -/
theorem LoadTrainingData_next_label_stale :
    (AddFaces toyCV (freshStore toyCV) sessionCalls).m_nextLabel = 2 ∧
    zoeDisk.files "g.xml" = some (File.storage [px 7] [0]) ∧
    zoeDisk.files "g.xml.map" = some (File.text "0 zoe\n") ∧
    (LoadTrainingData (AddFaces toyCV (freshStore toyCV) sessionCalls) zoeDisk "g.xml").1 = true ∧
    (LoadTrainingData (AddFaces toyCV (freshStore toyCV) sessionCalls) zoeDisk
      "g.xml").2.m_trainingLabels = [0] ∧
    (AddFace toyCV (LoadTrainingData (AddFaces toyCV (freshStore toyCV) sessionCalls)
        zoeDisk "g.xml").2 "cat" (px 5)).1 = true ∧
    (AddFace toyCV (LoadTrainingData (AddFaces toyCV (freshStore toyCV) sessionCalls)
        zoeDisk "g.xml").2 "cat" (px 5)).2.m_trainingLabels = [0, 2] := by
  decide

/-- C8 (amended): `SaveTrainingData` returns failure, writing nothing, when the
    gallery has zero entries or when the primary artifact cannot be opened for
    writing. With at least one entry and a writable primary path it returns
    success and writes the primary artifact; when the companion path cannot be
    opened nothing else is written and that path keeps what it held, otherwise
    the companion text is written too. -/
theorem SaveTrainingData_failure (s : FaceRecognition) (fsys : FileSystem) (filename : String) :
    (s.m_trainingImages = [] → SaveTrainingData s fsys filename = (false, fsys)) ∧
    (fsys.writable filename = false → SaveTrainingData s fsys filename = (false, fsys)) ∧
    (s.m_trainingImages ≠ [] → fsys.writable filename = true →
      fsys.writable (filename ++ ".map") = false →
      SaveTrainingData s fsys filename =
        (true, fsys.write filename (File.storage s.m_trainingImages s.m_trainingLabels)) ∧
      (SaveTrainingData s fsys filename).2.files filename =
        some (File.storage s.m_trainingImages s.m_trainingLabels) ∧
      (SaveTrainingData s fsys filename).2.files (filename ++ ".map") =
        fsys.files (filename ++ ".map")) ∧
    (s.m_trainingImages ≠ [] → fsys.writable filename = true →
      fsys.writable (filename ++ ".map") = true →
      SaveTrainingData s fsys filename =
        (true, (fsys.write filename
          (File.storage s.m_trainingImages s.m_trainingLabels)).write (filename ++ ".map")
            (File.text (mapFileText s.m_labelToName))) ∧
      (SaveTrainingData s fsys filename).2.files filename =
        some (File.storage s.m_trainingImages s.m_trainingLabels) ∧
      (SaveTrainingData s fsys filename).2.files (filename ++ ".map") =
        some (File.text (mapFileText s.m_labelToName))) := by
  have hne : s.m_trainingImages ≠ [] → s.m_trainingImages.isEmpty = false := by
    intro h1
    cases hs : s.m_trainingImages with
    | nil => exact absurd hs h1
    | cons a b => rfl
  refine ⟨?_, ?_, ?_, ?_⟩
  · intro h
    simp [SaveTrainingData, h]
  · intro h
    simp [SaveTrainingData, h]
  · intro h1 h2 h3
    have h3w : (fsys.write filename
        (File.storage s.m_trainingImages s.m_trainingLabels)).writable (filename ++ ".map") =
        false := h3
    have e : SaveTrainingData s fsys filename =
        (true, fsys.write filename (File.storage s.m_trainingImages s.m_trainingLabels)) := by
      simp only [SaveTrainingData, hne h1, h2, h3w, Bool.false_eq_true, if_false, Bool.not_true]
    refine ⟨e, ?_, ?_⟩
    · rw [e]
      simp only [FileSystem.write, if_true]
    · rw [e]
      simp only [FileSystem.write, (map_path_ne filename).symm, if_false]
  · intro h1 h2 h3
    have h3w : (fsys.write filename
        (File.storage s.m_trainingImages s.m_trainingLabels)).writable (filename ++ ".map") =
        true := h3
    have e : SaveTrainingData s fsys filename =
        (true, (fsys.write filename
          (File.storage s.m_trainingImages s.m_trainingLabels)).write (filename ++ ".map")
            (File.text (mapFileText s.m_labelToName))) := by
      simp only [SaveTrainingData, hne h1, h2, h3w, Bool.false_eq_true, if_false, Bool.not_true,
        if_true]
    refine ⟨e, ?_, ?_⟩
    · rw [e]
      simp only [FileSystem.write, map_path_ne filename, if_false, if_true]
    · rw [e]
      simp only [FileSystem.write, if_true]

/-- C8 (counterexample): one entry, the primary path "g.xml" can be written,
    the companion path "g.xml.map" cannot; `SaveTrainingData` returns success,
    the primary artifact is written and no `.map` file exists afterwards. -/
theorem SaveTrainingData_map_unwritable :
    thresholdStore.m_trainingImages ≠ [] ∧
    primaryOnlyDisk.writable "g.xml" = true ∧
    primaryOnlyDisk.writable ("g.xml" ++ ".map") = false ∧
    (SaveTrainingData thresholdStore primaryOnlyDisk "g.xml").1 = true ∧
    (SaveTrainingData thresholdStore primaryOnlyDisk "g.xml").2.files "g.xml" =
      some (File.storage [px 0] [0]) ∧
    (SaveTrainingData thresholdStore primaryOnlyDisk "g.xml").2.files ("g.xml" ++ ".map") = none := by
  decide

/-- Witness for the amended C8: an empty gallery; an unwritable primary path;
    a writable primary path with an unwritable companion; both paths writable. -/
theorem SaveTrainingData_failure_witness :
    SaveTrainingData (freshStore toyCV) emptyDisk "g.xml" = (false, emptyDisk) ∧
    SaveTrainingData thresholdStore primaryOnlyDisk "h.xml" = (false, primaryOnlyDisk) ∧
    (SaveTrainingData thresholdStore primaryOnlyDisk "g.xml" =
        (true, primaryOnlyDisk.write "g.xml"
          (File.storage thresholdStore.m_trainingImages thresholdStore.m_trainingLabels)) ∧
      (SaveTrainingData thresholdStore primaryOnlyDisk "g.xml").2.files "g.xml" =
        some (File.storage thresholdStore.m_trainingImages thresholdStore.m_trainingLabels) ∧
      (SaveTrainingData thresholdStore primaryOnlyDisk "g.xml").2.files ("g.xml" ++ ".map") =
        primaryOnlyDisk.files ("g.xml" ++ ".map")) ∧
    (SaveTrainingData thresholdStore emptyDisk "g.xml").2.files ("g.xml" ++ ".map") =
      some (File.text (mapFileText thresholdStore.m_labelToName)) :=
  ⟨(SaveTrainingData_failure (freshStore toyCV) emptyDisk "g.xml").1 (by decide),
   (SaveTrainingData_failure thresholdStore primaryOnlyDisk "h.xml").2.1 (by decide),
   (SaveTrainingData_failure thresholdStore primaryOnlyDisk "g.xml").2.2.1 (by decide)
     (by decide) (by decide),
   ((SaveTrainingData_failure thresholdStore emptyDisk "g.xml").2.2.2 (by decide)
     (by decide) (by decide)).2.2⟩

/-- C9 (amended): on an initialised store with a non-empty gallery, an image
    for which the detector returns no rectangle is answered "未检测到人脸". -/
theorem RecognizeFace_no_face (cv : OpenCV) (s : FaceRecognition) (image : Mat)
    (hinit : s.m_initialized = true)
    (hgal : s.m_trainingImages ≠ [])
    (hdet : DetectFaces cv s image = []) :
    RecognizeFace cv s image = some "未检测到人脸" := by
  have hne : s.m_trainingImages.isEmpty = false := by
    cases hs : s.m_trainingImages with
    | nil => exact absurd hs hgal
    | cons a b => rfl
  simp [RecognizeFace, hinit, hne, hdet]

/-- Witness for the amended C9. -/
theorem RecognizeFace_no_face_witness :
    RecognizeFace toyCV thresholdStore (px 0) = some "未检测到人脸" :=
  RecognizeFace_no_face toyCV thresholdStore (px 0) (by decide) (by decide) (by decide)

/-- C9 (counterexample): an initialised store with an empty gallery and an
    image without a face: the detector returns no rectangle, yet the answer is
    "未知", not "未检测到人脸". -/
theorem RecognizeFace_no_face_empty_gallery :
    (freshStore toyCV).m_initialized = true ∧
    (freshStore toyCV).m_trainingImages = [] ∧
    DetectFaces toyCV (freshStore toyCV) (px 0) = [] ∧
    RecognizeFace toyCV (freshStore toyCV) (px 0) = some "未知" ∧
    RecognizeFace toyCV (freshStore toyCV) (px 0) ≠ some "未检测到人脸" := by
  decide

/-- C10 (amended): while `m_initialized` is false, `DetectFaces` returns the
    empty list, `AddFace` fails and leaves the store unchanged, and
    `RecognizeFace` returns "未知", for every image and every gallery. -/
theorem uninitialized_behaviour (cv : OpenCV) (s : FaceRecognition) (name : String)
    (image : Mat) (hinit : s.m_initialized = false) :
    DetectFaces cv s image = [] ∧
    AddFace cv s name image = (false, s) ∧
    RecognizeFace cv s image = some "未知" := by
  simp [DetectFaces, AddFace, RecognizeFace, hinit]

/-- Witness for the amended C10, on a gallery with four entries. -/
theorem uninitialized_behaviour_witness :
    DetectFaces toyCV { tieStore with m_initialized := false } (px 9) = [] ∧
    AddFace toyCV { tieStore with m_initialized := false } "eve" (px 9) =
      (false, { tieStore with m_initialized := false }) ∧
    RecognizeFace toyCV { tieStore with m_initialized := false } (px 9) = some "未知" :=
  uninitialized_behaviour toyCV { tieStore with m_initialized := false } "eve" (px 9) rfl

/-- C10 (counterexample): on an uninitialised store with a non-empty gallery
    `RecognizeFace` answers "未知", which is not the "未检测到人脸" it gives, once
    initialised, for an image with no detected face. -/
theorem uninitialized_RecognizeFace_unknown :
    RecognizeFace toyCV { tieStore with m_initialized := false } (px 0) = some "未知" ∧
    RecognizeFace toyCV tieStore (px 0) = some "未检测到人脸" ∧
    RecognizeFace toyCV { tieStore with m_initialized := false } (px 0) ≠
      some "未检测到人脸" := by
  decide

/-! ## Load without the companion file, empty gallery, unnamed labels -/

/-- With the primary artifact present and the companion file absent,
    `LoadTrainingData` succeeds, replaces images and labels, and leaves
    `m_labelToName` and `m_nextLabel` as they were. -/
theorem LoadTrainingData_map_absent (s : FaceRecognition) (fsys : FileSystem)
    (filename : String) (images : List Mat) (labels : List Int)
    (hprim : fsys.files filename = some (File.storage images labels))
    (hmap : fsys.files (filename ++ ".map") = none) :
    LoadTrainingData s fsys filename =
      (true, { s with m_trainingImages := images, m_trainingLabels := labels }) := by
  simp only [LoadTrainingData, hprim, hmap]

/-- C11 (failing input): a store that enrolled "alice" (label 0) loads "g.xml"
    from a disk that holds the primary artifact and no "g.xml.map"; the load
    succeeds, images and labels are replaced, and the mapping still holds
    `0 ↦ "alice"` from before the load. -/
theorem LoadTrainingData_map_absent_keeps_names :
    (AddFace toyCV (freshStore toyCV) "alice" (px 5)).1 = true ∧
    (AddFace toyCV (freshStore toyCV) "alice" (px 5)).2.m_labelToName = [(0, "alice")] ∧
    noMapDisk.files "g.xml" = some (File.storage [px 3, px 4] [0, 1]) ∧
    noMapDisk.files ("g.xml" ++ ".map") = none ∧
    LoadTrainingData (AddFace toyCV (freshStore toyCV) "alice" (px 5)).2 noMapDisk "g.xml" =
      (true,
        { m_trainingImages := [px 3, px 4]
          m_trainingLabels := [0, 1]
          m_labelToName := [(0, "alice")]
          m_nextLabel := 1
          m_cameraRunning := false
          m_initialized := true }) ∧
    mapFind (LoadTrainingData (AddFace toyCV (freshStore toyCV) "alice" (px 5)).2 noMapDisk
      "g.xml").2.m_labelToName 0 = some "alice" := by
  decide

/-- Without any load, the labels stay strictly increasing: on the store reached
    from a freshly constructed, initialised store by `AddFace` calls alone, the
    label list is strictly increasing and free of repeats. -/
theorem AddFaces_labels_increasing (cv : OpenCV) (calls : List (String × Mat))
    (hinit : (Initialize cv FaceRecognition.new).1 = true) :
    List.Pairwise (fun a b => a < b) (AddFaces cv (freshStore cv) calls).m_trainingLabels ∧
    List.Nodup (AddFaces cv (freshStore cv) calls).m_trainingLabels := by
  have hfresh : freshStore cv = { FaceRecognition.new with m_initialized := true } :=
    Initialize_success cv _ hinit
  obtain ⟨_, h2, _, _⟩ := AddFaces_labels cv calls (freshStore cv) 0
    (by rw [hfresh]) (by rw [hfresh]; rfl) (by rw [hfresh]; rfl) (by rw [hfresh]; rfl)
  have hp : List.Pairwise (fun a b : Int => a < b)
      (AddFaces cv (freshStore cv) calls).m_trainingLabels := by
    rw [h2, List.pairwise_map]
    exact List.Pairwise.imp (fun h => Int.ofNat_lt.mpr h) (List.pairwise_lt_range _)
  exact ⟨hp, hp.imp (fun h => ne_of_lt h)⟩

/-- C12 (failing input): the gallery enrolled by `sessionCalls` (labels 0, 1) is
    saved successfully to a disk where the companion path cannot be written; a
    freshly constructed, initialised store loads that artifact (labels 0, 1,
    counter still 0), and the next successful `AddFace` appends label 0 again:
    the label list is `[0, 1, 0]`, neither increasing nor free of repeats. -/
theorem LoadTrainingData_AddFace_repeats_label :
    (AddFaces toyCV (freshStore toyCV) sessionCalls).m_trainingLabels = [0, 1] ∧
    (SaveTrainingData (AddFaces toyCV (freshStore toyCV) sessionCalls) primaryOnlyDisk
      "g.xml").1 = true ∧
    (LoadTrainingData (freshStore toyCV) noMapDisk "g.xml").1 = true ∧
    (LoadTrainingData (freshStore toyCV) noMapDisk "g.xml").2.m_trainingLabels = [0, 1] ∧
    (LoadTrainingData (freshStore toyCV) noMapDisk "g.xml").2.m_nextLabel = 0 ∧
    (AddFace toyCV (LoadTrainingData (freshStore toyCV) noMapDisk "g.xml").2 "cat" (px 5)).1 =
      true ∧
    (AddFace toyCV (LoadTrainingData (freshStore toyCV) noMapDisk "g.xml").2 "cat"
      (px 5)).2.m_trainingLabels = [0, 1, 0] ∧
    ¬ List.Pairwise (fun a b => a < b)
      (AddFace toyCV (LoadTrainingData (freshStore toyCV) noMapDisk "g.xml").2 "cat"
        (px 5)).2.m_trainingLabels ∧
    ¬ List.Nodup
      (AddFace toyCV (LoadTrainingData (freshStore toyCV) noMapDisk "g.xml").2 "cat"
        (px 5)).2.m_trainingLabels := by
  decide

/-- C13 (empty gallery): on a store whose gallery is empty, initialised or not,
    `RecognizeFace` returns "未知" for every image, and the same for every
    library, so whatever the detector would return. -/
theorem RecognizeFace_empty_gallery (cv : OpenCV) (s : FaceRecognition) (image : Mat)
    (hempty : s.m_trainingImages = []) :
    RecognizeFace cv s image = some "未知" ∧
    ∀ cv2 : OpenCV, RecognizeFace cv2 s image = RecognizeFace cv s image := by
  have h : ∀ c : OpenCV, RecognizeFace c s image = some "未知" := by
    intro c
    simp [RecognizeFace, hempty]
  exact ⟨h cv, fun cv2 => by rw [h cv2, h cv]⟩

/-- Witness for C13: on a fresh store the image `px 5`, in which `toyCV` detects
    a face, is answered "未知". -/
theorem RecognizeFace_empty_gallery_witness :
    DetectFaces toyCV (freshStore toyCV) (px 5) ≠ [] ∧
    RecognizeFace toyCV (freshStore toyCV) (px 5) = some "未知" :=
  ⟨by decide, (RecognizeFace_empty_gallery toyCV (freshStore toyCV) (px 5) (by decide)).1⟩

/-- C14 (failing input): in `staleNameStore` entry 0 has label 0, named "alice",
    and entry 1 has label 1, which has no name. Against the probe `px 4` entry 0
    scores 0.999 and entry 1 scores 1, the maximum. `MatchFace` returns
    "alice" with percent 100: the name of the lower-scoring entry 0. -/
theorem MatchFace_unnamed_best_keeps_earlier_name :
    staleNameStore.m_trainingImages = [px 3, px 4] ∧
    staleNameStore.m_trainingLabels = [0, 1] ∧
    mapFind staleNameStore.m_labelToName 0 = some "alice" ∧
    mapFind staleNameStore.m_labelToName 1 = none ∧
    correlation toyCV (px 4) (px 3) = 999 / 1000 ∧
    correlation toyCV (px 4) (px 4) = 1 ∧
    MatchFace toyCV staleNameStore (px 4) = some "alice (匹配度: 100%)" := by
  refine ⟨by decide, by decide, by decide, by decide, ?_, ?_, ?_⟩
  · simp [correlation, toyCV, px]; norm_num
  · simp [correlation, toyCV, px]
  · have hs : staleNameStore =
        { m_trainingImages := [px 3, px 4]
          m_trainingLabels := [0, 1]
          m_labelToName := [(0, "alice")]
          m_nextLabel := 1
          m_cameraRunning := false
          m_initialized := true } := by decide
    rw [hs]
    simp [MatchFace, MatchFace_loop, toyCV, px, mapFind, matchText, castInt]
    norm_num [mulDouble_one_hundred]
    decide

end FaceRec
